import Mathlib

/-!
Verification of the request-routing, asset-rewriting and proxy-dispatch
pipeline of the screeps-steamless-client local proxy (`src/clientApp.ts`).
Texts are modelled as `List Char`; each definition shallowly embeds the
corresponding JavaScript source construct.
-/

set_option maxRecDepth 4000

namespace SteamlessClient

/-- Character-list model of JavaScript strings. -/
abbrev Text := List Char

/-- Model of `s.replace(/\/+$/, '')`: remove every trailing `'/'` character. -/
def dropTrailingSlashes (s : Text) : Text :=
  (s.reverse.dropWhile (· = '/')).reverse

/-- JavaScript line terminators, which `.` in a regex without the `s` flag
does not match. -/
def isLineTerminator (c : Char) : Bool :=
  c = '\n' || c = '\r' || c.toNat = 0x2028 || c.toNat = 0x2029

/-- Substring test: does `n` occur contiguously inside `h`? -/
def containsSub (n : Text) : Text → Bool
  | [] => n.isEmpty
  | c :: t => n.isPrefixOf (c :: t) || containsSub n t

/-- Split `t` at the first occurrence of `lit`, returning the part before the
occurrence and the part after it (the leftmost-match convention of JavaScript
`String.prototype.replace` with a pattern anchored by a literal). -/
def splitFirst (lit : Text) : Text → Option (Text × Text)
  | [] => if lit.isEmpty then some ([], []) else none
  | c :: t =>
    if lit.isPrefixOf (c :: t) then some ([], (c :: t).drop lit.length)
    else (splitFirst lit t).map (fun p => (c :: p.1, p.2))

/-- Model of `s.replace(pat, repl)` for a plain (non-regex) first-occurrence
replacement with a non-empty pattern. -/
def replaceFirst (pat repl : Text) : Text → Text
  | [] => []
  | c :: t =>
    if pat.isPrefixOf (c :: t) then repl ++ (c :: t).drop pat.length
    else c :: replaceFirst pat repl t

/-- Model of `text.replace(/(LIT)[^x]*/, '$1' + val)`: keep everything before the first
occurrence of the literal `lit`, keep `lit`, substitute `val` for the greedy
run of characters satisfying `run` that follows. -/
def replaceAnchored (lit : Text) (run : Char → Bool) (val : Text) (t : Text) : Text :=
  match splitFirst lit t with
  | none => t
  | some (pre, rest) => pre ++ lit ++ val ++ rest.dropWhile run

/-- The per-request routing result of `extract`:
`{ backend: string; endpoint: string }`. -/
structure RouteInfo where
  backend : Text
  endpoint : Text
deriving DecidableEq, Repr

/-- The function `extract` (clientApp.ts line 94): in override mode (`argv.backend` set)
every URL maps to the override (trailing slashes stripped) with the whole URL
as endpoint; otherwise the URL must match
`/^\/\((?<backend>[^)]+)\)(?<endpoint>\/.*)$/` — a parenthesized backend
origin followed by an absolute inner path whose tail contains no line
terminator (`.` does not cross line terminators in JavaScript). -/
def extract (backendArg : Option Text) (url : Text) : Option RouteInfo :=
  match backendArg with
  | some b => some ⟨dropTrailingSlashes b, url⟩
  | none =>
    match url with
    | c1 :: c2 :: rest =>
      if c1 = '/' ∧ c2 = '(' then
        -- `[^)]+` is the maximal run of non-`')'` characters, then a literal `')'`
        let b := rest.takeWhile (· ≠ ')')
        match rest.dropWhile (· ≠ ')') with
        | c3 :: ep =>
          if c3 = ')' then
            if b.isEmpty then none
            else
              match ep with
              | c4 :: tail =>
                -- `\/.*$`: an absolute path whose tail `.` cannot cross line terminators
                if c4 = '/' ∧ tail.any isLineTerminator = false then
                  some ⟨dropTrailingSlashes b, ep⟩
                else none
              | [] => none
          else none
        | [] => none
      else none
    | _ => none

/-- Encoding: the link-generation form `'/(' + origin + ')'`
(clientApp.ts line 136 builds `/(${origin})${urlpath}`). -/
def encodeBackend (origin : Text) : Text :=
  '/' :: '(' :: (origin ++ [')'])

/-! Basic lemmas about the helpers. -/

theorem takeWhile_append_cons {p : Char → Bool} (l : Text) (x : Char) (r : Text)
    (hl : ∀ c ∈ l, p c = true) (hx : p x = false) :
    (l ++ x :: r).takeWhile p = l := by
  induction l with
  | nil => simp [List.takeWhile, hx]
  | cons a t ih =>
    have ha : p a = true := hl a (by simp)
    simp only [List.cons_append, List.takeWhile_cons, ha, if_true]
    rw [ih (fun c hc => hl c (by simp [hc]))]

theorem dropWhile_append_cons {p : Char → Bool} (l : Text) (x : Char) (r : Text)
    (hl : ∀ c ∈ l, p c = true) (hx : p x = false) :
    (l ++ x :: r).dropWhile p = x :: r := by
  induction l with
  | nil => simp [List.dropWhile, hx]
  | cons a t ih =>
    have ha : p a = true := hl a (by simp)
    simp only [List.cons_append, List.dropWhile_cons, ha, if_true]
    exact ih (fun c hc => hl c (by simp [hc]))

theorem head_dropWhile_not {p : Char → Bool} :
    ∀ (l : Text) (c : Char), (l.dropWhile p).head? = some c → p c = false := by
  intro l
  induction l with
  | nil => intro c h; simp [List.dropWhile] at h
  | cons a t ih =>
    intro c h
    by_cases ha : p a
    · rw [List.dropWhile_cons_of_pos ha] at h
      exact ih c h
    · rw [List.dropWhile_cons_of_neg ha] at h
      simp only [List.head?_cons, Option.some.injEq] at h
      rw [← h]
      exact Bool.of_not_eq_true ha

/-- The result of `dropTrailingSlashes` never ends in `'/'`. -/
theorem dropTrailingSlashes_getLast (s : Text) :
    (dropTrailingSlashes s).getLast? ≠ some '/' := by
  intro h
  unfold dropTrailingSlashes at h
  rw [List.getLast?_reverse] at h
  have := head_dropWhile_not (p := (· = '/')) s.reverse '/' h
  simp at this

/-- If every character of `s` fails the `(· = '/')` test at the end,
stripping is the identity; more precisely stripping never changes a string
whose last character is not `'/'`. -/
theorem dropTrailingSlashes_eq_self (s : Text) (h : s.getLast? ≠ some '/') :
    dropTrailingSlashes s = s := by
  unfold dropTrailingSlashes
  have h' : s.reverse.head? ≠ some '/' := by rwa [List.head?_reverse]
  cases hrev : s.reverse with
  | nil =>
    have : s = [] := by simpa using congrArg List.reverse hrev
    simp [this]
  | cons a t =>
    have ha : ¬ ((fun x => decide (x = '/')) a = true) := by
      simp only [decide_eq_true_eq]
      intro he
      exact h' (by rw [hrev, List.head?_cons, he])
    have hdw : List.dropWhile (fun x => decide (x = '/')) (a :: t) = a :: t := by
      simp only [List.dropWhile_cons]
      rw [if_neg ha]
    rw [hdw, ← hrev, List.reverse_reverse]

/-- Characterization of a successful decode in embedded-address mode: the URL
must be `/(` + backend + `)` + absolute endpoint, the backend segment is
non-empty and free of `')'`, and the route is the backend with trailing
slashes stripped paired with the endpoint. -/
theorem extract_none_eq_some (url : Text) (info : RouteInfo)
    (h : extract none url = some info) :
    ∃ b tail, url = '/' :: '(' :: (b ++ ')' :: '/' :: tail) ∧ b ≠ [] ∧
      (∀ c ∈ b, c ≠ ')') ∧ tail.any isLineTerminator = false ∧
      info = ⟨dropTrailingSlashes b, '/' :: tail⟩ := by
  match url with
  | [] => exact absurd h (by simp [extract])
  | [c1] => exact absurd h (by simp [extract])
  | c1 :: c2 :: rest =>
    simp only [extract] at h
    by_cases h12 : c1 = '/' ∧ c2 = '('
    · rw [if_pos h12] at h
      obtain ⟨rfl, rfl⟩ := h12
      match hdrop : rest.dropWhile (· ≠ ')') with
      | [] => rw [hdrop] at h; exact absurd h (by simp)
      | c3 :: ep =>
        rw [hdrop] at h
        dsimp only at h
        by_cases h3 : c3 = ')'
        · rw [if_pos h3] at h
          subst h3
          by_cases hb : (rest.takeWhile (· ≠ ')')).isEmpty
          · rw [if_pos hb] at h; exact absurd h (by simp)
          · rw [if_neg hb] at h
            match ep with
            | [] => exact absurd h (by simp)
            | c4 :: tail =>
              dsimp only at h
              by_cases h4 : c4 = '/' ∧ tail.any isLineTerminator = false
              · rw [if_pos h4] at h
                obtain ⟨rfl, hterm⟩ := h4
                refine ⟨rest.takeWhile (· ≠ ')'), tail, ?_, ?_, ?_, hterm, ?_⟩
                · rw [← hdrop, List.takeWhile_append_dropWhile]
                · intro hnil; rw [hnil] at hb; exact hb rfl
                · intro c hc
                  have := List.mem_takeWhile_imp hc
                  simpa using this
                · simpa using h.symm
              · rw [if_neg h4] at h; exact absurd h (by simp)
        · rw [if_neg h3] at h; exact absurd h (by simp)
    · rw [if_neg h12] at h; exact absurd h (by simp)

/-- C1: in embedded-address mode, for every valid origin `O` (non-empty, no
`')'`) and absolute inner path `P`, decoding the encoded path `/(O)P` yields
the backend `O` (trailing slashes stripped for canonicalization) and the
inner endpoint `P`: decode is the inverse of encode. -/
theorem extract_encodeBackend_roundTrip (O P tail : Text) (hO : O ≠ [])
    (hOc : ∀ c ∈ O, c ≠ ')') (hP : P = '/' :: tail)
    (hterm : ∀ c ∈ tail, isLineTerminator c = false) :
    extract none (encodeBackend O ++ P) = some ⟨dropTrailingSlashes O, P⟩ := by
  subst hP
  have hurl : encodeBackend O ++ '/' :: tail = '/' :: '(' :: (O ++ ')' :: '/' :: tail) := by
    simp [encodeBackend]
  have htk : (O ++ ')' :: '/' :: tail).takeWhile (fun c => decide (c ≠ ')')) = O :=
    takeWhile_append_cons O ')' ('/' :: tail) (fun c hc => by simpa using hOc c hc) (by decide)
  have hdw : (O ++ ')' :: '/' :: tail).dropWhile (fun c => decide (c ≠ ')')) = ')' :: '/' :: tail :=
    dropWhile_append_cons O ')' ('/' :: tail) (fun c hc => by simpa using hOc c hc) (by decide)
  have hb : O.isEmpty = false := by
    cases O with
    | nil => exact absurd rfl hO
    | cons a b => rfl
  have hany : tail.any isLineTerminator = false := by
    rw [List.any_eq_false]
    intro c hc
    simpa using hterm c hc
  rw [hurl]
  simp only [extract, htk, hdw, hb, hany]
  simp

/-- Closed instance of the round-trip law at a concrete origin and path. -/
theorem extract_encodeBackend_roundTrip_witness :
    extract none (encodeBackend "https://screeps.com/".toList ++ "/api/version".toList) =
      some ⟨"https://screeps.com".toList, "/api/version".toList⟩ := by
  have h := extract_encodeBackend_roundTrip "https://screeps.com/".toList
    "/api/version".toList "api/version".toList (by decide) (by decide) (by decide)
    (by decide)
  rw [h]
  decide

/-- C7: every successful decode of a request URL (origin-form, so beginning
with `'/'`) yields a route whose backend has no trailing slash and whose
endpoint begins with `'/'`; in override mode the route is the override
(canonicalized by trailing-slash stripping) with the full request path as
endpoint. -/
theorem route_invariants (cfg : Option Text) (url : Text) (info : RouteInfo) (o : Text)
    (hurl : url.head? = some '/') (hx : extract cfg url = some info) :
    info.backend.getLast? ≠ some '/' ∧ info.endpoint.head? = some '/' ∧
      (cfg = some o → info.backend = dropTrailingSlashes o ∧ info.endpoint = url) := by
  match cfg with
  | some b =>
    have hinfo : info = ⟨dropTrailingSlashes b, url⟩ := by
      simpa [extract] using hx.symm
    subst hinfo
    exact ⟨dropTrailingSlashes_getLast b, hurl,
      fun hbo => by
        obtain rfl : b = o := by simpa using hbo
        exact ⟨rfl, rfl⟩⟩
  | none =>
    obtain ⟨b, tail, _, _, _, _, hinfo⟩ := extract_none_eq_some url info hx
    subst hinfo
    exact ⟨dropTrailingSlashes_getLast b, rfl, fun hco => by cases hco⟩

/-- Closed instance of the route invariants in override mode. -/
theorem route_invariants_witness :
    (RouteInfo.mk "http://localhost:21025".toList "/api/version".toList).backend.getLast?
        ≠ some '/' ∧
      (RouteInfo.mk "http://localhost:21025".toList "/api/version".toList).endpoint.head?
        = some '/' := by
  have h := route_invariants (some "http://localhost:21025/".toList) "/api/version".toList
    ⟨"http://localhost:21025".toList, "/api/version".toList⟩ "http://localhost:21025/".toList
    (by decide) (by decide)
  exact ⟨h.1, h.2.1⟩

/-! Section: Asset lookup and official-prefix handling (clientApp.ts lines 203-207) -/

/-- The origin `'https://screeps.com'`, the official backend origin compared by `===`. -/
def officialOrigin : Text := "https://screeps.com".toList

/-- Model of `info.endpoint.match(/^\/(season|ptr)/)?.[0]`: the alternation tries
`season` before `ptr`; the match is anchored at the start of the endpoint. -/
def seasonPtrPrefix (endpoint : Text) : Option Text :=
  if "/season".toList.isPrefixOf endpoint then some "/season".toList
  else if "/ptr".toList.isPrefixOf endpoint then some "/ptr".toList
  else none

/-- The recorded prefix: computed only when the backend is the official
origin (`isOfficial ? ... : undefined`). -/
def officialPrefix (backend endpoint : Text) : Option Text :=
  if backend = officialOrigin then seasonPtrPrefix endpoint else none

/-- Model of `prefix ? info.endpoint.replace(prefix, '') : info.endpoint`. -/
def endpointFilePath (backend endpoint : Text) : Text :=
  match officialPrefix backend endpoint with
  | some p => replaceFirst p [] endpoint
  | none => endpoint

/-- Model of `endpointFilePath === '/' ? 'index.html' : endpointFilePath.substring(1)`:
the archive path looked up in the zip. -/
def assetLookupPath (backend endpoint : Text) : Text :=
  let e := endpointFilePath backend endpoint
  if e = "/".toList then "index.html".toList else e.drop 1

/-- Model of `prefix?.substring(1) || ''`: the value substituted for `PREFIX`. -/
def prefixValue (pfx : Option Text) : Text :=
  match pfx with
  | some p => p.drop 1
  | none => []

/-- Model of `prefix === '/ptr' ? 'true' : 'false'`: the value substituted for `PTR`. -/
def ptrValue (pfx : Option Text) : Text :=
  if pfx = some "/ptr".toList then "true".toList else "false".toList

/-- The literal anchor of `/(PREFIX: ')[^']*/`. -/
def prefixLit : Text := "PREFIX: ".toList ++ ['\'']

/-- The literal anchor of `/(PTR: )[^,]*/`. -/
def ptrLit : Text := "PTR: ".toList

/-- Model of `text.replace(/(PREFIX: ')[^']*/, '$1' + prefixValue)` (clientApp.ts 307-308). -/
def configReplacePrefix (pfx : Option Text) (t : Text) : Text :=
  replaceAnchored prefixLit (fun c => c ≠ '\'') (prefixValue pfx) t

/-- Model of `text.replace(/(PTR: )[^,]*/, '$1' + ptrValue)` (clientApp.ts 310-311). -/
def configReplacePtr (pfx : Option Text) (t : Text) : Text :=
  replaceAnchored ptrLit (fun c => c ≠ ',') (ptrValue pfx) t

theorem dropWhile_all {p : Char → Bool} (l : Text) (h : ∀ c ∈ l, p c = true) :
    l.dropWhile p = [] := by
  induction l with
  | nil => rfl
  | cons a t ih =>
    rw [List.dropWhile_cons_of_pos (h a (by simp))]
    exact ih (fun c hc => h c (by simp [hc]))

theorem replaceFirst_head (pat repl r : Text) (hpat : pat ≠ []) :
    replaceFirst pat repl (pat ++ r) = repl ++ r := by
  match pat with
  | [] => exact absurd rfl hpat
  | a :: t =>
    have hpre : (a :: t).isPrefixOf (a :: (t ++ r)) = true := by
      rw [← List.cons_append, List.isPrefixOf_iff_prefix]
      exact List.prefix_append _ _
    show replaceFirst (a :: t) repl (a :: (t ++ r)) = repl ++ r
    unfold replaceFirst
    rw [if_pos hpre]
    congr 1
    rw [← List.cons_append]
    exact List.drop_left _ _

/-- Greedy character-class run after the anchor: the replacement keeps the
prefix and the anchor, substitutes the value, and resumes at the first
character outside the class. -/
theorem replaceAnchored_split (lit : Text) (run : Char → Bool) (val : Text)
    (t pre body suf : Text)
    (hs : splitFirst lit t = some (pre, body ++ suf))
    (hr : ∀ c ∈ body, run c = true)
    (he : suf = [] ∨ ∃ c s, suf = c :: s ∧ run c = false) :
    replaceAnchored lit run val t = pre ++ lit ++ val ++ suf := by
  unfold replaceAnchored
  rw [hs]
  dsimp only
  rcases he with rfl | ⟨c, s, rfl, hc⟩
  · rw [List.append_nil, dropWhile_all body hr]
  · rw [dropWhile_append_cons body c s hr hc]

/-- C4: for the official backend a `/season` or `/ptr` endpoint prefix is
recorded and stripped before archive lookup; for any other backend nothing is
stripped; `PREFIX` is rewritten to the recorded prefix without its leading
slash (empty when absent) and `PTR` is rewritten to `true` exactly when the
recorded prefix is `/ptr`. -/
theorem official_prefix_strip_and_config_flags
    (rest rest2 b ep : Text) (hb : b ≠ officialOrigin)
    (pfx : Option Text) (hpfx : pfx ≠ some "/ptr".toList)
    (t1 pre1 run1 suf1 : Text)
    (hs1 : splitFirst prefixLit t1 = some (pre1, run1 ++ suf1))
    (hr1 : ∀ c ∈ run1, c ≠ '\'')
    (he1 : suf1 = [] ∨ ∃ s, suf1 = '\'' :: s)
    (t2 pre2 run2 suf2 : Text)
    (hs2 : splitFirst ptrLit t2 = some (pre2, run2 ++ suf2))
    (hr2 : ∀ c ∈ run2, c ≠ ',')
    (he2 : suf2 = [] ∨ ∃ s, suf2 = ',' :: s) :
    officialPrefix officialOrigin ("/season".toList ++ rest) = some "/season".toList ∧
    endpointFilePath officialOrigin ("/season".toList ++ rest) = rest ∧
    officialPrefix officialOrigin ("/ptr".toList ++ rest2) = some "/ptr".toList ∧
    endpointFilePath officialOrigin ("/ptr".toList ++ rest2) = rest2 ∧
    officialPrefix b ep = none ∧
    endpointFilePath b ep = ep ∧
    prefixValue (some "/season".toList) = "season".toList ∧
    prefixValue (some "/ptr".toList) = "ptr".toList ∧
    prefixValue none = [] ∧
    ptrValue (some "/ptr".toList) = "true".toList ∧
    ptrValue pfx = "false".toList ∧
    configReplacePrefix (some "/season".toList) t1 = pre1 ++ prefixLit ++ "season".toList ++ suf1 ∧
    configReplacePtr (some "/ptr".toList) t2 = pre2 ++ ptrLit ++ "true".toList ++ suf2 := by
  have hseason : officialPrefix officialOrigin ("/season".toList ++ rest) = some "/season".toList := by
    unfold officialPrefix seasonPtrPrefix
    rw [if_pos rfl, if_pos]
    rw [ List.isPrefixOf_iff_prefix]
    exact List.prefix_append _ _
  have hptrPre : officialPrefix officialOrigin ("/ptr".toList ++ rest2) = some "/ptr".toList := by
    unfold officialPrefix seasonPtrPrefix
    rw [if_pos rfl, if_neg, if_pos]
    · rw [ List.isPrefixOf_iff_prefix]
      exact List.prefix_append _ _
    · show ¬ ("/season".toList.isPrefixOf ('/' :: 'p' :: 't' :: 'r' :: rest2) = true)
      simp [List.isPrefixOf]
  refine ⟨hseason, ?_, hptrPre, ?_, ?_, ?_, rfl, rfl, rfl, rfl, ?_, ?_, ?_⟩
  · unfold endpointFilePath
    rw [hseason]
    exact replaceFirst_head _ [] rest (by decide)
  · unfold endpointFilePath
    rw [hptrPre]
    exact replaceFirst_head _ [] rest2 (by decide)
  · unfold officialPrefix
    rw [if_neg hb]
  · unfold endpointFilePath officialPrefix
    rw [if_neg hb]
  · unfold ptrValue
    rw [if_neg hpfx]
  · refine replaceAnchored_split _ _ _ _ _ _ _ hs1 (fun c hc => by simpa using hr1 c hc) ?_
    rcases he1 with rfl | ⟨s, rfl⟩
    · exact Or.inl rfl
    · exact Or.inr ⟨'\'', s, rfl, by simp⟩
  · refine replaceAnchored_split _ _ _ _ _ _ _ hs2 (fun c hc => by simpa using hr2 c hc) ?_
    rcases he2 with rfl | ⟨s, rfl⟩
    · exact Or.inl rfl
    · exact Or.inr ⟨',', s, rfl, by simp⟩

/-- Closed instance of the prefix/flag behaviour on a concrete config text. -/
theorem official_prefix_strip_and_config_flags_witness :
    officialPrefix officialOrigin "/season/config.js".toList = some "/season".toList ∧
    endpointFilePath officialOrigin "/season/config.js".toList = "/config.js".toList := by
  have h := official_prefix_strip_and_config_flags
    "/config.js".toList "/room".toList "http://127.0.0.1:21025".toList "/season/x".toList
    (by decide) none (by decide)
    ("var PREFIX: ".toList ++ ['\''] ++ "old".toList ++ ['\''] ++ ",".toList)
    "var ".toList "old".toList (['\''] ++ ",".toList)
    (by decide) (by decide) (Or.inr ⟨",".toList, rfl⟩)
    ("PTR: false,".toList) [] "false".toList ",".toList
    (by decide) (by decide) (Or.inr ⟨[], rfl⟩)
  exact ⟨h.1, h.2.1⟩

/-! Section: Content-Type assignment (clientApp.ts lines 381-395) -/

/-- The fixed extension → MIME type table. -/
def contentTypeTable : List (Text × Text) :=
  [(".css".toList, "text/css".toList),
   (".html".toList, "text/html".toList),
   (".js".toList, "text/javascript".toList),
   (".map".toList, "application/json".toList),
   (".png".toList, "image/png".toList),
   (".svg".toList, "image/svg+xml".toList),
   (".ttf".toList, "font/ttf".toList),
   (".woff".toList, "font/woff".toList),
   (".woff2".toList, "font/woff2".toList)]

/-- Table access `{...}[key]`: `none` models JavaScript `undefined`. -/
def lookupType (k : Text) : Option Text :=
  (contentTypeTable.find? (fun e => e.1 = k)).map (fun e => e.2)

/-- Model of `urlPath.toLowerCase()` (ASCII case folding). -/
def toLowerText (t : Text) : Text := t.map Char.toLower

/-- Model of `/\.[^.]+$/.exec(path)?.[0]`: the final `'.'`-led extension — a dot
followed by a non-empty dot-free run reaching the end of the string. -/
def extMatch (p : Text) : Option Text :=
  let suffix := (p.reverse.takeWhile (· ≠ '.')).reverse
  if '.' ∈ p ∧ suffix ≠ [] then some ('.' :: suffix) else none

/-- Lookup `\x7b...\x7d[ext ?? '.html']`: the Content-Type value the middleware passes to
`context.set` — `none` models the `undefined` produced by an extension
missing from the table. -/
def contentTypeFor (urlPath : Text) : Option Text :=
  lookupType ((extMatch (toLowerText urlPath)).getD ".html".toList)

/-- C9 fails as stated: `foo.txt` has an extension, so the `?? '.html'`
fallback is not taken, and `.txt` has no table entry — the served value is
JavaScript `undefined` (modelled `none`), not the HTML content type. -/
theorem contentType_unknown_extension_counterexample :
    extMatch (toLowerText "foo.txt".toList) = some ".txt".toList ∧
    contentTypeFor "foo.txt".toList = none ∧
    ¬ contentTypeFor "foo.txt".toList = some "text/html".toList := by
  refine ⟨by decide, by decide, ?_⟩
  intro h
  exact absurd h (by decide)

theorem extMatch_append_ext (base ext : Text) (hx : ∀ c ∈ ext, c ≠ '.')
    (hne : ext ≠ []) :
    extMatch (base ++ '.' :: ext) = some ('.' :: ext) := by
  unfold extMatch
  have hrev : (base ++ '.' :: ext).reverse = ext.reverse ++ '.' :: base.reverse := by
    simp
  have htk : (ext.reverse ++ '.' :: base.reverse).takeWhile (fun c => decide (c ≠ '.'))
      = ext.reverse :=
    takeWhile_append_cons _ '.' _
      (fun c hc => by simpa using hx c (List.mem_reverse.mp hc)) (by decide)
  rw [hrev]
  simp only [htk, List.reverse_reverse]
  rw [if_pos]
  exact ⟨by simp, hne⟩

/-- C9 amended: a path with no final extension defaults to the HTML type; a
path with a final extension is assigned whatever the fixed table holds for it
— which is `none` (no value at all) for extensions outside the table, the
HTML type being the fallback only for missing extensions. -/
theorem contentType_assignment (p p2 e base ext : Text)
    (hm : extMatch (toLowerText p) = none)
    (he : extMatch (toLowerText p2) = some e)
    (hx : ∀ c ∈ ext, c ≠ '.') (hne : ext ≠ []) :
    contentTypeFor p = some "text/html".toList ∧
    contentTypeFor p2 = lookupType e ∧
    extMatch (base ++ '.' :: ext) = some ('.' :: ext) ∧
    lookupType ".txt".toList = none ∧
    lookupType ".css".toList = some "text/css".toList ∧
    lookupType ".png".toList = some "image/png".toList ∧
    lookupType ".woff2".toList = some "font/woff2".toList := by
  refine ⟨?_, ?_, extMatch_append_ext base ext hx hne, by decide, by decide, by decide, by decide⟩
  · unfold contentTypeFor
    rw [hm]
    decide
  · unfold contentTypeFor
    rw [he]
    rfl

/-- Closed instance of the Content-Type assignment. -/
theorem contentType_assignment_witness :
    contentTypeFor "fontfile".toList = some "text/html".toList ∧
    contentTypeFor "A.PNG".toList = lookupType ".png".toList := by
  have h := contentType_assignment "fontfile".toList "A.PNG".toList ".png".toList
    "build.min".toList "js".toList (by decide) (by decide) (by decide) (by decide)
  exact ⟨h.1, h.2.1⟩

/-! Section: URL origin parsing (`new URL(info.backend)`, clientApp.ts line 318)
and the values injected into the options literal (lines 343-344). -/

/-- Decimal value of a digit string (as JavaScript URL port parsing). -/
def digitsToNat (l : Text) : Nat :=
  l.foldl (fun n c => n * 10 + (c.toNat - 48)) 0

def natToDigitsAux : Nat → Nat → Text
  | 0, _ => []
  | f + 1, n =>
    if n < 10 then [Char.ofNat (48 + n)]
    else natToDigitsAux f (n / 10) ++ [Char.ofNat (48 + n % 10)]

/-- Canonical decimal serialization of a number (what `url.port` reports). -/
def natToDigits (n : Nat) : Text := natToDigitsAux (n + 1) n

/-- The fields of a WHATWG `URL` the rewrite uses. `port` is `""` when the
URL carries no port or carries the scheme's default port (the URL standard
elides default ports). -/
structure ParsedURL where
  scheme : Text
  hostname : Text
  port : Text
deriving DecidableEq, Repr

/-- Computation of `url.port` from the raw digit run after `':'`: empty run means no port;
the scheme default (http 80, https 443) is elided to the empty string. -/
def portString (scheme ds : Text) : Text :=
  if ds = [] then []
  else
    let n := digitsToNat ds
    if (scheme = "http".toList ∧ n = 80) ∨ (scheme = "https".toList ∧ n = 443) then []
    else natToDigits n

/-- Model of `new URL(origin)` restricted to origins of the shape
`scheme://host[:port][/...]`: scheme and host are case-folded, the port run
must be decimal digits, default ports are elided. -/
def parseOrigin (s : Text) : Option ParsedURL :=
  match splitFirst "://".toList s with
  | none => none
  | some (scheme, rest) =>
    let hostport := rest.takeWhile (· ≠ '/')
    let host := toLowerText (hostport.takeWhile (· ≠ ':'))
    let lscheme := toLowerText scheme
    if host = [] then none
    else
      match hostport.dropWhile (· ≠ ':') with
      | [] => some ⟨lscheme, host, []⟩
      | _ :: ds =>
        if ds.all Char.isDigit then some ⟨lscheme, host, portString lscheme ds⟩
        else none

/-- The host/port pair spliced into the options literal:
`JSON.stringify(backend.hostname)` pairs with `backend.port || '80'`. -/
def backendHostPort (u : ParsedURL) : Text × Text :=
  (u.hostname, if u.port = [] then "80".toList else u.port)

/-- Model of `JSON.stringify` of a plain string: quote, escaping `'"'` and `''`. -/
def jsonString (s : Text) : Text :=
  '"' :: (s.map (fun c => if c = '"' ∨ c = '\\' then ['\\', c] else [c])).flatten ++ ['"']

theorem takeWhile_all {p : Char → Bool} (l : Text) (h : ∀ c ∈ l, p c = true) :
    l.takeWhile p = l := by
  induction l with
  | nil => rfl
  | cons a t ih =>
    rw [List.takeWhile_cons_of_pos (h a (by simp))]
    rw [ih (fun c hc => h c (by simp [hc]))]

theorem map_id_of {f : Char → Char} (l : Text) (h : ∀ c ∈ l, f c = c) :
    l.map f = l := by
  induction l with
  | nil => rfl
  | cons a t ih =>
    rw [List.map_cons, h a (by simp), ih (fun c hc => h c (by simp [hc]))]

theorem splitFirst_append (lit pre suf : Text)
    (hfree : ∀ i < pre.length, lit.isPrefixOf ((pre ++ lit ++ suf).drop i) = false) :
    splitFirst lit (pre ++ lit ++ suf) = some (pre, suf) := by
  induction pre with
  | nil =>
    match lit with
    | [] =>
      match suf with
      | [] => rfl
      | c :: s =>
        show splitFirst [] (c :: s) = some ([], c :: s)
        unfold splitFirst
        rw [if_pos (by rfl)]
        rfl
    | a :: t =>
      show splitFirst (a :: t) ((a :: t) ++ suf) = some ([], suf)
      rw [List.cons_append]
      unfold splitFirst
      rw [if_pos (by rw [← List.cons_append, List.isPrefixOf_iff_prefix]; exact List.prefix_append _ _)]
      rw [← List.cons_append, List.drop_left]
  | cons a pre ih =>
    show splitFirst lit (a :: (pre ++ lit ++ suf)) = some (a :: pre, suf)
    unfold splitFirst
    have h0 : lit.isPrefixOf (a :: (pre ++ lit ++ suf)) = false := by
      have := hfree 0 (by simp)
      simpa using this
    rw [h0]
    simp only [Bool.false_eq_true, if_false]
    rw [ih (fun i hi => by
      have := hfree (i + 1) (by simp; omega)
      simpa using this)]
    rfl

/-- C10: the injected `host` is exactly the backend URL's hostname and the
injected `port` is the URL's port, defaulting to the literal `80` when the
parsed URL carries none — in particular an `https:` origin without an
explicit port (and even with an explicit `:443`, which the URL parser
elides) receives port `80`, not `443`. -/
theorem injected_host_port (h ds : Text) (hne : h ≠ [])
    (hh : ∀ c ∈ h, c ≠ ':' ∧ c ≠ '/' ∧ Char.toLower c = c)
    (hdsne : ds ≠ []) (hdig : ds.all Char.isDigit = true)
    (hcanon : natToDigits (digitsToNat ds) = ds)
    (hp80 : digitsToNat ds ≠ 80) :
    parseOrigin ("https://".toList ++ h) = some ⟨"https".toList, h, []⟩ ∧
    backendHostPort ⟨"https".toList, h, []⟩ = (h, "80".toList) ∧
    parseOrigin ("http://".toList ++ h ++ ':' :: ds) = some ⟨"http".toList, h, ds⟩ ∧
    backendHostPort ⟨"http".toList, h, ds⟩ = (h, ds) ∧
    parseOrigin ("https://".toList ++ h ++ ':' :: "443".toList)
      = some ⟨"https".toList, h, []⟩ := by
  have hlow : toLowerText h = h := map_id_of h (fun c hc => (hh c hc).2.2)
  have hslash : ∀ c ∈ h, (fun x => decide (x ≠ '/')) c = true := by
    intro c hc
    simpa using (hh c hc).2.1
  have hcolon : ∀ c ∈ h, (fun x => decide (x ≠ ':')) c = true := by
    intro c hc
    simpa using (hh c hc).1
  refine ⟨?_, ?_, ?_, ?_, ?_⟩
  · have : "https://".toList ++ h = "https".toList ++ "://".toList ++ h := rfl
    rw [this]
    unfold parseOrigin
    rw [splitFirst_append "://".toList "https".toList h (by
      intro i hi
      have hi5 : i = 0 ∨ i = 1 ∨ i = 2 ∨ i = 3 ∨ i = 4 := by
        simp at hi
        omega
      rcases hi5 with rfl | rfl | rfl | rfl | rfl <;> rfl)]
    dsimp only
    rw [takeWhile_all h hslash, takeWhile_all h hcolon, dropWhile_all h hcolon, hlow]
    rw [if_neg (by simpa using hne)]
    rfl
  · rfl
  · have : "http://".toList ++ h ++ ':' :: ds
        = "http".toList ++ "://".toList ++ (h ++ ':' :: ds) := by simp
    rw [this]
    unfold parseOrigin
    rw [splitFirst_append "://".toList "http".toList (h ++ ':' :: ds) (by
      intro i hi
      have hi4 : i = 0 ∨ i = 1 ∨ i = 2 ∨ i = 3 := by
        simp at hi
        omega
      rcases hi4 with rfl | rfl | rfl | rfl <;> rfl)]
    dsimp only
    have hsall : ∀ c ∈ h ++ ':' :: ds, (fun x => decide (x ≠ '/')) c = true := by
      intro c hc
      rcases List.mem_append.mp hc with hch | hcd
      · exact hslash c hch
      · rcases List.mem_cons.mp hcd with rfl | hcd
        · decide
        · have := List.all_eq_true.mp hdig c hcd
          simp only [decide_eq_true_eq]
          intro hce
          rw [hce] at this
          exact absurd this (by decide)
    rw [takeWhile_all _ hsall, takeWhile_append_cons h ':' ds hcolon (by decide),
      dropWhile_append_cons h ':' ds hcolon (by decide), hlow]
    rw [if_neg (by simpa using hne)]
    dsimp only
    rw [hdig]
    simp only [if_true]
    unfold portString
    rw [if_neg (by simpa using hdsne)]
    dsimp only
    rw [if_neg (by
      rintro (⟨_, hn⟩ | ⟨hsch, _⟩)
      · exact hp80 hn
      · exact absurd hsch (by decide))]
    rw [hcanon]
    rfl
  · unfold backendHostPort
    rw [if_neg (by simpa using hdsne)]
  · have : "https://".toList ++ h ++ ':' :: "443".toList
        = "https".toList ++ "://".toList ++ (h ++ ':' :: "443".toList) := by simp
    rw [this]
    unfold parseOrigin
    rw [splitFirst_append "://".toList "https".toList (h ++ ':' :: "443".toList) (by
      intro i hi
      have hi5 : i = 0 ∨ i = 1 ∨ i = 2 ∨ i = 3 ∨ i = 4 := by
        simp at hi
        omega
      rcases hi5 with rfl | rfl | rfl | rfl | rfl <;> rfl)]
    dsimp only
    have hsall : ∀ c ∈ h ++ ':' :: "443".toList, (fun x => decide (x ≠ '/')) c = true := by
      intro c hc
      rcases List.mem_append.mp hc with hch | hcd
      · exact hslash c hch
      · rcases List.mem_cons.mp hcd with rfl | hcd
        · decide
        · have : c ∈ "443".toList := hcd
          fin_cases this <;> decide
    rw [takeWhile_all _ hsall, takeWhile_append_cons h ':' "443".toList hcolon (by decide),
      dropWhile_append_cons h ':' "443".toList hcolon (by decide), hlow]
    rw [if_neg (by simpa using hne)]
    rfl

/-- Closed instance: `https://screeps.com` injects `screeps.com`/`80`;
`http://127.0.0.1:21025` injects `127.0.0.1`/`21025`. -/
theorem injected_host_port_witness :
    parseOrigin "https://screeps.com".toList
      = some ⟨"https".toList, "screeps.com".toList, []⟩ ∧
    backendHostPort ⟨"https".toList, "screeps.com".toList, []⟩
      = ("screeps.com".toList, "80".toList) ∧
    parseOrigin "http://127.0.0.1:21025".toList
      = some ⟨"http".toList, "127.0.0.1".toList, "21025".toList⟩ ∧
    backendHostPort ⟨"http".toList, "127.0.0.1".toList, "21025".toList⟩
      = ("127.0.0.1".toList, "21025".toList) := by
  have h1 := injected_host_port "screeps.com".toList "21025".toList (by decide)
    (by decide) (by decide) (by decide) (by decide) (by decide)
  have h2 := injected_host_port "127.0.0.1".toList "21025".toList (by decide)
    (by decide) (by decide) (by decide) (by decide) (by decide)
  exact ⟨h1.1, h1.2.1, h2.2.2.1, h2.2.2.2.1⟩

/-! Section: Object-literal patcher (clientApp.ts lines 332-352) -/

/-- Scanner mode for the payload well-formedness check: in code, inside a
string literal opened by quote `q`, or right after a backslash escape. -/
inductive ScanMode where
  | code
  | str (q : Char)
  | esc (q : Char)
deriving DecidableEq, Repr

/-- One scanner step. `none` is the rejecting state (a closing brace at
depth zero, which can never recover). -/
def scanStep : Option (Nat × ScanMode) → Char → Option (Nat × ScanMode)
  | none, _ => none
  | some (d, .esc q), _ => some (d, .str q)
  | some (d, .str q), c =>
    if c = '\\' then some (d, .esc q)
    else if c = q then some (d, .code)
    else some (d, .str q)
  | some (d, .code), c =>
    if c = '{' then some (d + 1, .code)
    else if c = '}' then
      match d with
      | 0 => none
      | e + 1 => some (e, .code)
    else if c = '"' ∨ c = '\'' then some (d, .str c)
    else some (d, .code)

def scanText (l : Text) : Option (Nat × ScanMode) :=
  l.foldl scanStep (some (0, .code))

/-- Models the syntactic acceptance of `new Function(payload)` on a candidate
`options={...}` payload (line 339): the marker must lead and the braces of
the literal must balance, braces inside single- or double-quoted strings not
counting and every string being terminated. This brace/string shape is the
aspect of JavaScript syntax that decides the scan loop's accept/continue
behaviour on the payloads the loop can produce. -/
def compilesPayload (payload : Text) : Bool :=
  "options=".toList.isPrefixOf payload
    && decide (scanText (payload.drop 8) = some (0, ScanMode.code))

/-- Class `\w`, the word characters of the `\b` boundary in `/\boptions=\{/`. -/
def isWordChar (c : Char) : Bool := c.isAlphanum || c = '_'

/-- The literal part of the marker regex `/\boptions=\{/`. -/
def markerText : Text := "options=\x7b".toList

def markerIndicesAux : Nat → Option Char → Text → List Nat
  | _, _, [] => []
  | i, prev, c :: t =>
    let boundary := match prev with
      | none => true
      | some p => !isWordChar p
    (if boundary && markerText.isPrefixOf (c :: t) then [i] else [])
      ++ markerIndicesAux (i + 1) (some c) t

/-- The match indices of `text.matchAll(/\boptions=\{/g)`: every position
where the marker occurs and the preceding character (if any) is not a word
character. `matchAll` captures the original string, so the indices are fixed
before any splice. -/
def markerIndices (t : Text) : List Nat := markerIndicesAux 0 none t

/-- The inner scan of lines 334-351: walk forward from a marker, and at each
`'}'` test whether the payload up to and including it compiles; the first
compiling payload ends the scan (`break`), a failing candidate is swallowed
by the `catch` and the walk continues. -/
def findClose (payload : Text) : Text → Option (Text × Text)
  | [] => none
  | c :: t =>
    if c = '}' && compilesPayload (payload ++ [c]) then some (payload ++ [c], t)
    else findClose (payload ++ [c]) t

def spacesN (n : Nat) : Text := List.replicate n ' '

/-- The spliced fields of the template literal at lines 342-346 up to (not
including) the re-emitted closing brace, whitespace exactly as in the source:
`,\n` + 40 spaces before each injected field, 36 before the brace line. -/
def injectedBody (host port official : Text) : Text :=
  ",\n".toList ++ spacesN 40 ++ "host: ".toList ++ jsonString host
    ++ ",\n".toList ++ spacesN 40 ++ "port: ".toList ++ port
    ++ ",\n".toList ++ spacesN 40 ++ "official: ".toList ++ official
    ++ ",\n".toList ++ spacesN 36

/-- The full spliced text, ending with the re-emitted `} ` of the template. -/
def injectedFields (host port official : Text) : Text :=
  injectedBody host port official ++ "\x7d ".toList

/-- Handling of one marker occurrence on the current text: on a compiling
payload containing the sentinel `apiUrl`, splice
`text.substring(0, i)` + fields + `'} '` + `text.substring(i + 1)`;
otherwise (including when no closing brace compiles) leave the text
unchanged. -/
def patchAtMarker (host port official : Text) (cur : Text) (idx : Nat) : Text :=
  match findClose [] (cur.drop idx) with
  | none => cur
  | some (payload, post) =>
    if containsSub "apiUrl".toList payload then
      cur.take idx ++ payload.dropLast ++ injectedFields host port official ++ post
    else cur

/-- The whole patch loop: the marker indices are computed on the original
text once, the loop body rescans and splices the evolving text. -/
def patchOptions (host port official : Text) (t : Text) : Text :=
  (markerIndices t).foldl (patchAtMarker host port official) t

/-! Lemmas about `containsSub` and the scanner. -/

theorem containsSub_iff (n h : Text) :
    containsSub n h = true ↔ ∃ x y, h = x ++ n ++ y := by
  induction h with
  | nil =>
    simp only [containsSub, List.isEmpty_iff]
    constructor
    · rintro rfl
      exact ⟨[], [], rfl⟩
    · rintro ⟨x, y, hxy⟩
      have hlen := congrArg List.length hxy
      simp only [List.length_append, List.length_nil] at hlen
      have hn : n.length = 0 := by omega
      exact List.eq_nil_of_length_eq_zero hn
  | cons c t ih =>
    simp only [containsSub, Bool.or_eq_true, ih]
    constructor
    · rintro (hp | ⟨x, y, rfl⟩)
      · rw [ List.isPrefixOf_iff_prefix] at hp
        obtain ⟨y, hy⟩ := hp
        exact ⟨[], y, by simpa using hy.symm⟩
      · exact ⟨c :: x, y, rfl⟩
    · rintro ⟨x, y, hxy⟩
      match x with
      | [] =>
        left
        rw [ List.isPrefixOf_iff_prefix]
        exact ⟨y, by simpa using hxy.symm⟩
      | a :: x =>
        right
        refine ⟨x, y, ?_⟩
        have := hxy
        simp only [List.cons_append] at this
        exact (List.cons.injEq .. ▸ this).2

theorem containsSub_of_decomp (n x y : Text) : containsSub n (x ++ n ++ y) = true :=
  (containsSub_iff n _).mpr ⟨x, y, rfl⟩

theorem foldl_scanStep_none (l : Text) : l.foldl scanStep none = none := by
  induction l with
  | nil => rfl
  | cons c t ih => simpa [List.foldl_cons, scanStep] using ih

/-- Reachable scanner states only hold the two opening quote characters. -/
def goodMode : ScanMode → Prop
  | .code => True
  | .str q => q = '"' ∨ q = '\''
  | .esc q => q = '"' ∨ q = '\''

theorem scanStep_good (st : Nat × ScanMode) (c : Char) (h : goodMode st.2)
    (st' : Nat × ScanMode) (h' : scanStep (some st) c = some st') :
    goodMode st'.2 := by
  obtain ⟨d, m⟩ := st
  match m with
  | .esc q =>
    simp only [scanStep] at h'
    cases h'
    exact h
  | .str q =>
    simp only [scanStep] at h'
    by_cases h1 : c = '\\'
    · rw [if_pos h1] at h'; cases h'; exact h
    · rw [if_neg h1] at h'
      by_cases h2 : c = q
      · rw [if_pos h2] at h'; cases h'; trivial
      · rw [if_neg h2] at h'; cases h'; exact h
  | .code =>
    simp only [scanStep] at h'
    by_cases h1 : c = '\x7b'
    · rw [if_pos h1] at h'; cases h'; trivial
    · rw [if_neg h1] at h'
      by_cases h2 : c = '\x7d'
      · rw [if_pos h2] at h'
        match d with
        | 0 => simp at h'
        | e + 1 => cases h'; trivial
      · rw [if_neg h2] at h'
        by_cases h3 : c = '"' ∨ c = '\''
        · rw [if_pos h3] at h'; cases h'; exact h3
        · rw [if_neg h3] at h'; cases h'; trivial

theorem foldl_scanStep_good (l : Text) (st : Nat × ScanMode) (h : goodMode st.2)
    (st' : Nat × ScanMode) (h' : l.foldl scanStep (some st) = some st') :
    goodMode st'.2 := by
  induction l generalizing st with
  | nil =>
    cases h'
    exact h
  | cons c t ih =>
    rw [List.foldl_cons] at h'
    match hstep : scanStep (some st) c with
    | none =>
      rw [hstep, foldl_scanStep_none] at h'
      cases h'
    | some st'' =>
      rw [hstep] at h'
      exact ih st'' (scanStep_good st c h st'' hstep) h'

/-- Stepping back across the final `'}'`: the only good state mapped to
`(0, code)` by `'}'` is `(1, code)`. -/
theorem scanStep_close_inv (st : Nat × ScanMode) (hgood : goodMode st.2)
    (h : scanStep (some st) '\x7d' = some (0, ScanMode.code)) :
    st = (1, ScanMode.code) := by
  obtain ⟨d, m⟩ := st
  match m with
  | .esc q =>
    simp only [scanStep] at h
    simp at h
  | .str q =>
    simp only [scanStep] at h
    by_cases h2 : ('\x7d' : Char) = q
    · rcases hgood with rfl | rfl <;> exact absurd h2 (by decide)
    · rw [if_neg h2] at h
      simp at h
  | .code =>
    simp only [scanStep] at h
    rw [if_pos trivial] at h
    match d with
    | 0 => simp at h
    | e + 1 =>
      simp only [Option.some.injEq, Prod.mk.injEq] at h
      obtain ⟨rfl, -⟩ := h
      rfl

theorem findClose_sound : ∀ (rest acc payload post : Text),
    findClose acc rest = some (payload, post) →
    payload.getLast? = some '\x7d' ∧ compilesPayload payload = true ∧
      acc ++ rest = payload ++ post := by
  intro rest
  induction rest with
  | nil =>
    intro acc payload post h
    simp [findClose] at h
  | cons c t ih =>
    intro acc payload post h
    unfold findClose at h
    by_cases hc : (c = '\x7d' && compilesPayload (acc ++ [c])) = true
    · rw [if_pos hc] at h
      simp only [Option.some.injEq, Prod.mk.injEq] at h
      obtain ⟨rfl, rfl⟩ := h.symm
      obtain ⟨hc1, hc2⟩ := Bool.and_eq_true_iff.mp hc
      have hcc : c = '\x7d' := by simpa using hc1
      subst hcc
      refine ⟨?_, hc2, by simp⟩
      simp
    · rw [if_neg hc] at h
      obtain ⟨h1, h2, h3⟩ := ih (acc ++ [c]) payload post h
      refine ⟨h1, h2, ?_⟩
      rw [← h3]
      simp

theorem foldl_scanStep_chain (X Y : Text) (a b c : Option (Nat × ScanMode))
    (hX : X.foldl scanStep a = b) (hY : Y.foldl scanStep b = c) :
    (X ++ Y).foldl scanStep a = c := by
  rw [List.foldl_append, hX, hY]

theorem foldl_scan_code_plain (l : Text) (d : Nat)
    (h : ∀ c ∈ l, c ≠ '\x7b' ∧ c ≠ '\x7d' ∧ c ≠ '"' ∧ c ≠ '\'') :
    l.foldl scanStep (some (d, ScanMode.code)) = some (d, ScanMode.code) := by
  induction l with
  | nil => rfl
  | cons a t ih =>
    obtain ⟨h1, h2, h3, h4⟩ := h a (by simp)
    have hstep : scanStep (some (d, ScanMode.code)) a = some (d, ScanMode.code) := by
      simp only [scanStep]
      rw [if_neg h1, if_neg h2, if_neg (by rintro (hq | hq); exacts [h3 hq, h4 hq])]
    rw [List.foldl_cons, hstep]
    exact ih (fun c hc => h c (by simp [hc]))

theorem foldl_scan_str_plain (l : Text) (d : Nat) (q : Char)
    (h : ∀ c ∈ l, c ≠ '\\' ∧ c ≠ q) :
    l.foldl scanStep (some (d, ScanMode.str q)) = some (d, ScanMode.str q) := by
  induction l with
  | nil => rfl
  | cons a t ih =>
    obtain ⟨h1, h2⟩ := h a (by simp)
    have hstep : scanStep (some (d, ScanMode.str q)) a = some (d, ScanMode.str q) := by
      simp only [scanStep]
      rw [if_neg h1, if_neg h2]
    rw [List.foldl_cons, hstep]
    exact ih (fun c hc => h c (by simp [hc]))

theorem flatten_map_of (l : Text) (f : Char → Text) (h : ∀ c ∈ l, f c = [c]) :
    (l.map f).flatten = l := by
  induction l with
  | nil => rfl
  | cons a t ih =>
    rw [List.map_cons, List.flatten_cons, h a (by simp),
      ih (fun c hc => h c (by simp [hc]))]
    rfl

theorem jsonString_plain (host : Text) (hhost : ∀ c ∈ host, c ≠ '"' ∧ c ≠ '\\') :
    jsonString host = '"' :: host ++ ['"'] := by
  unfold jsonString
  rw [flatten_map_of host _ (fun c hc => by
    rw [if_neg]
    rintro (hq | hq)
    exacts [(hhost c hc).1 hq, (hhost c hc).2 hq])]

theorem scan_jsonString (d : Nat) (host : Text)
    (hhost : ∀ c ∈ host, c ≠ '"' ∧ c ≠ '\\') :
    (jsonString host).foldl scanStep (some (d, ScanMode.code))
      = some (d, ScanMode.code) := by
  rw [jsonString_plain host hhost]
  rw [show ('"' :: host ++ ['"'] : Text) = ['"'] ++ host ++ ['"'] from rfl]
  refine foldl_scanStep_chain _ _ _ (some (d, ScanMode.str '"')) _
    (foldl_scanStep_chain _ _ _ (some (d, ScanMode.str '"')) _ ?_ ?_) ?_
  · simp [scanStep]
  · exact foldl_scan_str_plain host d '"'
      (fun c hc => ⟨(hhost c hc).2, (hhost c hc).1⟩)
  · simp [scanStep]

theorem digit_plain (c : Char) (h : c.isDigit = true) :
    c ≠ '\x7b' ∧ c ≠ '\x7d' ∧ c ≠ '"' ∧ c ≠ '\'' ∧ c ≠ '\\' := by
  refine ⟨?_, ?_, ?_, ?_, ?_⟩ <;>
    (rintro rfl; exact absurd h (by decide))

theorem scan_injectedBody (host port official : Text)
    (hhost : ∀ c ∈ host, c ≠ '"' ∧ c ≠ '\\')
    (hport : ∀ c ∈ port, Char.isDigit c = true)
    (hofficial : official = "true".toList ∨ official = "false".toList) :
    (injectedBody host port official).foldl scanStep (some (1, ScanMode.code))
      = some (1, ScanMode.code) := by
  have hportScan : port.foldl scanStep (some (1, ScanMode.code))
      = some (1, ScanMode.code) :=
    foldl_scan_code_plain port 1 (fun c hc => by
      obtain ⟨p1, p2, p3, p4, _⟩ := digit_plain c (hport c hc)
      exact ⟨p1, p2, p3, p4⟩)
  have hoffScan : official.foldl scanStep (some (1, ScanMode.code))
      = some (1, ScanMode.code) := by
    rcases hofficial with rfl | rfl <;> decide
  unfold injectedBody
  refine foldl_scanStep_chain _ _ _ (some (1, ScanMode.code)) _ ?_ (by decide)
  refine foldl_scanStep_chain _ _ _ (some (1, ScanMode.code)) _ ?_ (by decide)
  refine foldl_scanStep_chain _ _ _ (some (1, ScanMode.code)) _ ?_ hoffScan
  refine foldl_scanStep_chain _ _ _ (some (1, ScanMode.code)) _ ?_ (by decide)
  refine foldl_scanStep_chain _ _ _ (some (1, ScanMode.code)) _ ?_ (by decide)
  refine foldl_scanStep_chain _ _ _ (some (1, ScanMode.code)) _ ?_ (by decide)
  refine foldl_scanStep_chain _ _ _ (some (1, ScanMode.code)) _ ?_ hportScan
  refine foldl_scanStep_chain _ _ _ (some (1, ScanMode.code)) _ ?_ (by decide)
  refine foldl_scanStep_chain _ _ _ (some (1, ScanMode.code)) _ ?_ (by decide)
  refine foldl_scanStep_chain _ _ _ (some (1, ScanMode.code)) _ ?_ (by decide)
  refine foldl_scanStep_chain _ _ _ (some (1, ScanMode.code)) _ ?_
    (scan_jsonString 1 host hhost)
  refine foldl_scanStep_chain _ _ _ (some (1, ScanMode.code)) _ ?_ (by decide)
  refine foldl_scanStep_chain _ _ _ (some (1, ScanMode.code)) _ ?_ (by decide)
  decide

theorem containsSub_dropLast (n p : Text) (hn : n ≠ []) (hmem : '\x7d' ∉ n)
    (hlast : p.getLast? = some '\x7d') (hc : containsSub n p = true) :
    containsSub n p.dropLast = true := by
  obtain ⟨x, y, rfl⟩ := (containsSub_iff n p).mp hc
  rcases y.eq_nil_or_concat with rfl | ⟨y2, a, hy⟩
  · exfalso
    rw [List.append_nil, List.getLast?_append_of_ne_nil _ hn] at hlast
    rcases n.eq_nil_or_concat with rfl | ⟨n2, b, hb⟩
    · exact hn rfl
    · rw [List.concat_eq_append] at hb
      subst hb
      rw [List.getLast?_concat] at hlast
      have hb2 : b = '\x7d' := by simpa using hlast
      subst hb2
      exact hmem (by simp)
  · rw [List.concat_eq_append] at hy
    subst hy
    have hshape : x ++ n ++ (y2 ++ [a]) = (x ++ n ++ y2) ++ [a] := by simp
    rw [hshape, List.dropLast_concat]
    exact containsSub_of_decomp n x y2

theorem containsSub_append_right (n a b : Text) (h : containsSub n a = true) :
    containsSub n (a ++ b) = true := by
  obtain ⟨x, y, rfl⟩ := (containsSub_iff n a).mp h
  rw [show x ++ n ++ y ++ b = x ++ n ++ (y ++ b) from by simp]
  exact containsSub_of_decomp ..

/-- C2: the options-literal patcher. With the marker occurring exactly once
(at index `k`), the output is the input with, when the scan finds a closing
brace whose payload compiles and contains the sentinel `apiUrl`, the `host`,
`port`, `official` fields of the template spliced in place of the closing
brace (prefix before the marker and suffix after the brace byte-identical);
when no closing brace compiles (unbalanced braces / failing evaluation) or
the sentinel is missing, the input is returned unchanged. Moreover the
patched literal still compiles and contains the sentinel along with each
injected `key: value` pair. -/
theorem options_literal_patcher
    (t : Text) (k : Nat) (host port official : Text)
    (hm : markerIndices t = [k])
    (hhost : ∀ c ∈ host, c ≠ '"' ∧ c ≠ '\\')
    (hport : ∀ c ∈ port, Char.isDigit c = true)
    (hofficial : official = "true".toList ∨ official = "false".toList) :
    patchOptions host port official t =
      (match findClose [] (t.drop k) with
       | none => t
       | some (payload, post) =>
         if containsSub "apiUrl".toList payload then
           t.take k ++ payload.dropLast ++ injectedFields host port official ++ post
         else t) ∧
    (∀ payload post, findClose [] (t.drop k) = some (payload, post) →
      containsSub "apiUrl".toList payload = true →
      t = t.take k ++ (payload ++ post) ∧
      compilesPayload
        (payload.dropLast ++ (injectedFields host port official).dropLast) = true ∧
      containsSub "apiUrl".toList
        (payload.dropLast ++ (injectedFields host port official).dropLast) = true ∧
      containsSub ("host: ".toList ++ jsonString host)
        (injectedFields host port official) = true ∧
      containsSub ("port: ".toList ++ port)
        (injectedFields host port official) = true ∧
      containsSub ("official: ".toList ++ official)
        (injectedFields host port official) = true) := by
  constructor
  · unfold patchOptions
    rw [hm]
    simp only [List.foldl_cons, List.foldl_nil]
    rfl
  · intro payload post hfind hapi
    obtain ⟨hlast, hcomp, hsplit⟩ := findClose_sound (t.drop k) [] payload post hfind
    have hsplit' : t.drop k = payload ++ post := by simpa using hsplit
    refine ⟨by rw [hsplit'.symm, List.take_append_drop], ?_, ?_, ?_, ?_, ?_⟩
    · -- the patched payload still compiles
      obtain ⟨hpre, hscan⟩ := Bool.and_eq_true_iff.mp hcomp
      rw [ List.isPrefixOf_iff_prefix] at hpre
      obtain ⟨S, rfl⟩ := hpre
      have hSne : S ≠ [] := by
        rintro rfl
        rw [List.append_nil] at hlast
        exact absurd hlast (by decide)
      rw [List.getLast?_append_of_ne_nil _ hSne] at hlast
      obtain ⟨S2, a, hSa⟩ := (S.eq_nil_or_concat.resolve_left hSne)
      rw [List.concat_eq_append] at hSa
      subst hSa
      rw [List.getLast?_concat] at hlast
      have ha : a = '\x7d' := by simpa using hlast
      subst ha
      have hscan' : scanText (S2 ++ ['\x7d']) = some (0, ScanMode.code) := by
        have hdrop : ("options=".toList ++ (S2 ++ ['\x7d'])).drop 8 = S2 ++ ['\x7d'] := by
          simpa using List.drop_left "options=".toList (S2 ++ ['\x7d'])
        have := of_decide_eq_true hscan
        rwa [hdrop] at this
      have hS2 : scanText S2 = some (1, ScanMode.code) := by
        unfold scanText at hscan' ⊢
        rw [List.foldl_append] at hscan'
        match hst : S2.foldl scanStep (some (0, ScanMode.code)) with
        | none =>
          rw [hst] at hscan'
          simp [scanStep] at hscan'
        | some st =>
          rw [hst] at hscan'
          have hgood := foldl_scanStep_good S2 (0, ScanMode.code) trivial st hst
          have := scanStep_close_inv st hgood (by simpa using hscan')
          rw [this]
      have hdl1 : ("options=".toList ++ (S2 ++ ['\x7d'])).dropLast
          = "options=".toList ++ S2 := by
        rw [show "options=".toList ++ (S2 ++ ['\x7d'])
            = ("options=".toList ++ S2) ++ ['\x7d'] from by simp]
        exact List.dropLast_concat ..
      have hdl2 : (injectedFields host port official).dropLast
          = injectedBody host port official ++ ['\x7d'] := by
        unfold injectedFields
        rw [show injectedBody host port official ++ "\x7d ".toList
            = (injectedBody host port official ++ ['\x7d']) ++ [' '] from by simp]
        rw [List.dropLast_concat]
      rw [hdl1, hdl2]
      unfold compilesPayload
      rw [Bool.and_eq_true_iff]
      constructor
      · rw [ List.isPrefixOf_iff_prefix]
        exact ⟨S2 ++ (injectedBody host port official ++ ['\x7d']), by simp⟩
      · rw [decide_eq_true_iff]
        have hdrop8 : (("options=".toList ++ S2)
            ++ (injectedBody host port official ++ ['\x7d'])).drop 8
            = S2 ++ (injectedBody host port official ++ ['\x7d']) := by
          rw [show ("options=".toList ++ S2) ++ (injectedBody host port official ++ ['\x7d'])
              = "options=".toList ++ (S2 ++ (injectedBody host port official ++ ['\x7d']))
              from by simp]
          simpa using List.drop_left "options=".toList
            (S2 ++ (injectedBody host port official ++ ['\x7d']))
        rw [hdrop8]
        unfold scanText
        refine foldl_scanStep_chain S2 _ _ (some (1, ScanMode.code)) _ hS2 ?_
        refine foldl_scanStep_chain _ _ _ (some (1, ScanMode.code)) _
          (scan_injectedBody host port official hhost hport hofficial) ?_
        decide
    · have h1 : containsSub "apiUrl".toList payload.dropLast = true :=
        containsSub_dropLast _ payload (by decide) (by decide) hlast hapi
      exact containsSub_append_right _ _ _ h1
    · apply (containsSub_iff _ _).mpr
      refine ⟨",\n".toList ++ spacesN 40,
        ",\n".toList ++ spacesN 40 ++ "port: ".toList ++ port
          ++ ",\n".toList ++ spacesN 40 ++ "official: ".toList ++ official
          ++ ",\n".toList ++ spacesN 36 ++ "\x7d ".toList, ?_⟩
      unfold injectedFields injectedBody
      simp
    · apply (containsSub_iff _ _).mpr
      refine ⟨",\n".toList ++ spacesN 40 ++ "host: ".toList ++ jsonString host
          ++ ",\n".toList ++ spacesN 40,
        ",\n".toList ++ spacesN 40 ++ "official: ".toList ++ official
          ++ ",\n".toList ++ spacesN 36 ++ "\x7d ".toList, ?_⟩
      unfold injectedFields injectedBody
      simp
    · apply (containsSub_iff _ _).mpr
      refine ⟨",\n".toList ++ spacesN 40 ++ "host: ".toList ++ jsonString host
          ++ ",\n".toList ++ spacesN 40 ++ "port: ".toList ++ port
          ++ ",\n".toList ++ spacesN 40,
        ",\n".toList ++ spacesN 36 ++ "\x7d ".toList, ?_⟩
      unfold injectedFields injectedBody
      simp

/-- Closed instance of the patcher on the spec's example literal. -/
theorem options_literal_patcher_witness :
    patchOptions "screeps.com".toList "21025".toList "true".toList
        "var options=\x7b\"apiUrl\":\"x\"\x7d rest".toList
      = "var options=\x7b\"apiUrl\":\"x\"".toList
          ++ injectedFields "screeps.com".toList "21025".toList "true".toList
          ++ " rest".toList := by
  have h := options_literal_patcher
    "var options=\x7b\"apiUrl\":\"x\"\x7d rest".toList 4
    "screeps.com".toList "21025".toList "true".toList
    (by decide) (by decide) (by decide) (Or.inl rfl)
  rw [h.1]
  decide

/-! Section: build.min.js rewrite: version fetch and URL replacements
(clientApp.ts lines 316-366) -/

structure Feature where
  name : Text
deriving DecidableEq, Repr

structure ServerData where
  features : Option (List Feature)
deriving DecidableEq, Repr

structure VersionResponse where
  serverData : Option ServerData
deriving DecidableEq, Repr

/-- Model of `version?.serverData?.features?.some(f => f.name.toLowerCase() ===
'official-like') ?? false` (lines 326-329). `none` at any level models a
missing field; `none` for the whole response models the `catch`-swallowed
fetch or JSON-parse failure, which leaves `version` undefined. -/
def officialLike (v : Option VersionResponse) : Bool :=
  match v with
  | none => false
  | some vr =>
    match vr.serverData with
    | none => false
    | some sd =>
      match sd.features with
      | none => false
      | some fs => fs.any (fun f => toLowerText f.name = "official-like".toList)

/-- Model of `backend.hostname === 'screeps.com' || officialLike` (line 330). -/
def officialFlag (u : ParsedURL) (v : Option VersionResponse) : Bool :=
  u.hostname = "screeps.com".toList || officialLike v

/-- A replacement pattern: `some c` matches exactly `c`, `none` is the regex
`.` (any character except a line terminator). -/
def matchPat : List (Option Char) → Text → Option Text
  | [], rest => some rest
  | _ :: _, [] => none
  | p :: ps, c :: cs =>
    match p with
    | some d => if c = d then matchPat ps cs else none
    | none => if isLineTerminator c then none else matchPat ps cs

def replaceAllPat (pat : List (Option Char)) (repl : Text) : Nat → Text → Text
  | _, [] => []
  | 0, t => t
  | fuel + 1, c :: t =>
    match matchPat pat (c :: t) with
    | some rest => repl ++ replaceAllPat pat repl fuel rest
    | none => c :: replaceAllPat pat repl fuel t

/-- Model of `text.replace(/PAT/g, repl)`: scan left to right, replace every
non-overlapping match, resume after each match. -/
def replaceAll (pat : List (Option Char)) (repl : Text) (t : Text) : Text :=
  replaceAllPat pat repl t.length t

def literalPat (s : Text) : List (Option Char) := s.map some

/-- Pattern `/http:\/\/"\+s\.options\.host\+":"\+s\.options\.port\+"\/room-history/g`:
every character is escaped, so the pattern is the literal template string. -/
def roomHistoryPat : List (Option Char) :=
  literalPat "http://\"+s.options.host+\":\"+s.options.port+\"/room-history".toList

/-- Pattern `/https:\/\/d3os7yery2usni\.cloudfront\.net/g`, fully literal. -/
def cdnPat : List (Option Char) :=
  literalPat "https://d3os7yery2usni.cloudfront.net".toList

/-- Pattern `/https:\/\/screeps.com\/a\//g`: the dot of `screeps.com` is an
unescaped regex `.`, matching any non-line-terminator character. -/
def screepsAPat : List (Option Char) :=
  literalPat "https://screeps".toList ++ [none] ++ literalPat "com/a/".toList

/-- The build.min.js rewrite with the official flag already computed: patch
the options literal with the backend's hostname, `port || '80'` and the
flag; for a non-official hostname replace the room-history template with the
client history URL and the CDN origin with `backend + /assets`; in all cases
replace the official web origin with the client root URL. `historyUrl` and
`rootUrl` stand for `client.getURL(...)` values supplied by the separate
client module. -/
def buildMinRewriteFlag (text : Text) (u : ParsedURL) (official : Bool)
    (backendOrigin historyUrl rootUrl : Text) : Text :=
  let hp := backendHostPort u
  let text1 := patchOptions hp.1 hp.2
    (if official then "true".toList else "false".toList) text
  let text2 :=
    if u.hostname ≠ "screeps.com".toList then
      replaceAll cdnPat (backendOrigin ++ "/assets".toList)
        (replaceAll roomHistoryPat historyUrl text1)
    else text1
  replaceAll screepsAPat rootUrl text2

/-- The build.min.js rewrite from the (possibly failed) version response. -/
def buildMinRewrite (text : Text) (u : ParsedURL) (v : Option VersionResponse)
    (backendOrigin historyUrl rootUrl : Text) : Text :=
  buildMinRewriteFlag text u (officialFlag u v) backendOrigin historyUrl rootUrl

/-- C6: when the `/api/version` fetch fails or its body fails to parse, the
official-like flag is `false`, the rewrite still completes — it equals the
total rewrite with the flag reduced to the hostname test — and a backend
whose hostname is `screeps.com` is still treated as official. -/
theorem version_fetch_failure_tolerated (text : Text) (u : ParsedURL)
    (backendOrigin historyUrl rootUrl : Text) :
    officialLike none = false ∧
    officialFlag u none = decide (u.hostname = "screeps.com".toList) ∧
    buildMinRewrite text u none backendOrigin historyUrl rootUrl
      = buildMinRewriteFlag text u (decide (u.hostname = "screeps.com".toList))
          backendOrigin historyUrl rootUrl ∧
    officialFlag ⟨"https".toList, "screeps.com".toList, []⟩ none = true := by
  have h2 : officialFlag u none = decide (u.hostname = "screeps.com".toList) := by
    unfold officialFlag officialLike
    simp
  refine ⟨rfl, h2, ?_, by decide⟩
  unfold buildMinRewrite
  rw [h2]

/-! Section: Tracking-script stripping (clientApp.ts lines 262-286) -/

def scriptOpen : Text := "<script".toList

/-- The closing tag without its final `'>'`; the regex places that `'>'`
after it as a literal. -/
def scriptCloseTag : Text := "</script".toList

/-- Try `/<script[^>]*>[^>]*VENDOR[^>]*<\/script>/` at the head of `t`; on a
match return the remainder. The `[^>]*` runs cannot cross `'>'`, so the
attribute run ends at the first `'>'`, the content run at the next `'>'`,
which must close a literal `</script` suffix; the vendor substring must occur
in the content before that suffix. -/
def tryMatchScript (vendor : Text) (t : Text) : Option Text :=
  if scriptOpen.isPrefixOf t then
    match (t.drop 7).dropWhile (· ≠ '>') with
    | [] => none
    | _ :: r2 =>
      let content := r2.takeWhile (· ≠ '>')
      match r2.dropWhile (· ≠ '>') with
      | [] => none
      | _ :: r3 =>
        if scriptCloseTag.isSuffixOf content
            && containsSub vendor (content.take (content.length - 8)) then
          some r3
        else none
  else none

def replaceScriptsFuel (vendor stub : Text) : Nat → Text → Text
  | _, [] => []
  | 0, t => t
  | fuel + 1, c :: t =>
    match tryMatchScript vendor (c :: t) with
    | some rest => stub ++ replaceScriptsFuel vendor stub fuel rest
    | none => c :: replaceScriptsFuel vendor stub fuel t

/-- Model of `text.replace(/<script[^>]*>[^>]*VENDOR[^>]*<\/script>/g, stub)`. -/
def replaceScripts (vendor stub : Text) (t : Text) : Text :=
  replaceScriptsFuel vendor stub t.length t

def xsollaStub : Text :=
  "<script>xnt = new Proxy(() => xnt, \x7b get: () => xnt \x7d)</script>".toList

def facebookStub : Text :=
  "<script>fbq = new Proxy(() => fbq, \x7b get: () => fbq \x7d)</script>".toList

def googleStub : Text :=
  "<script>ga = new Proxy(() => ga, \x7b get: () => ga \x7d)</script>".toList

def mxpnlStub : Text :=
  "<script>mixpanel = new Proxy(() => mixpanel, \x7b get: () => mixpanel \x7d)</script>".toList

def twttrStub : Text :=
  "<script>twttr = new Proxy(() => twttr, \x7b get: () => twttr \x7d)</script>".toList

def recaptchaStub : Text :=
  "<script>function onRecaptchaLoad()\x7b\x7d</script>".toList

/-- The six tracking-script replacements of the entry document, in source
order. -/
def trackingRewrite (t : Text) : Text :=
  replaceScripts "onRecaptchaLoad".toList recaptchaStub
    (replaceScripts "twttr".toList twttrStub
      (replaceScripts "mxpnl".toList mxpnlStub
        (replaceScripts "google".toList googleStub
          (replaceScripts "facebook".toList facebookStub
            (replaceScripts "xsolla".toList xsollaStub t)))))

theorem containsSub_mono (n a b : Text) (hin : a <:+: b)
    (h : containsSub n a = true) : containsSub n b = true := by
  obtain ⟨x, y, rfl⟩ := (containsSub_iff n a).mp h
  obtain ⟨w, z, hb⟩ := hin
  apply (containsSub_iff ..).mpr
  exact ⟨w ++ x, y ++ z, by rw [← hb]; simp⟩

theorem tryMatchScript_none (vendor t : Text) (h : containsSub vendor t = false) :
    tryMatchScript vendor t = none := by
  unfold tryMatchScript
  by_cases hpre : scriptOpen.isPrefixOf t = true
  · rw [if_pos hpre]
    cases hd : (t.drop 7).dropWhile (· ≠ '>') with
    | nil => rfl
    | cons c r2 =>
      dsimp only
      cases hd2 : r2.dropWhile (· ≠ '>') with
      | nil => rfl
      | cons c2 r3 =>
        dsimp only
        have hsub : containsSub vendor
            ((r2.takeWhile (· ≠ '>')).take ((r2.takeWhile (· ≠ '>')).length - 8))
              = false := by
          by_contra hc
          rw [Bool.not_eq_false] at hc
          have hr2t : (c :: r2) <:+ t.drop 7 := by
            rw [← hd]
            exact List.dropWhile_suffix _
          have hinf : (r2.takeWhile (· ≠ '>')).take
              ((r2.takeWhile (· ≠ '>')).length - 8) <:+: t :=
            (((( List.take_prefix _ _).trans
              ( List.takeWhile_prefix _)).isInfix.trans
                (List.suffix_cons c r2).isInfix).trans hr2t.isInfix).trans
              (List.drop_suffix 7 t).isInfix
          rw [containsSub_mono vendor _ t hinf hc] at h
          cases h
        rw [hsub, Bool.and_false]
        rfl
  · rw [if_neg hpre]

theorem replaceScriptsFuel_noVendor (vendor stub : Text) :
    ∀ (fuel : Nat) (t : Text), containsSub vendor t = false →
      replaceScriptsFuel vendor stub fuel t = t := by
  intro fuel
  induction fuel with
  | zero =>
    intro t h
    cases t <;> rfl
  | succ f ih =>
    intro t h
    match t with
    | [] => rfl
    | c :: t2 =>
      have h2 : containsSub vendor t2 = false := by
        have : (vendor.isPrefixOf (c :: t2) || containsSub vendor t2) = false := h
        exact (Bool.or_eq_false_iff.mp this).2
      simp only [replaceScriptsFuel]
      rw [tryMatchScript_none vendor _ h]
      rw [ih t2 h2]

theorem replaceScripts_noVendor (vendor stub t : Text)
    (h : containsSub vendor t = false) : replaceScripts vendor stub t = t :=
  replaceScriptsFuel_noVendor vendor stub t.length t h

theorem tryMatchScript_block (vendor T X Y rest : Text)
    (hT : ∀ c ∈ T, c ≠ '>') (hX : ∀ c ∈ X, c ≠ '>') (hY : ∀ c ∈ Y, c ≠ '>')
    (hV : ∀ c ∈ vendor, c ≠ '>') :
    tryMatchScript vendor
      (scriptOpen ++ T ++ '>' :: (X ++ vendor ++ Y ++ scriptCloseTag ++ '>' :: rest))
      = some rest := by
  have hB : ∀ c ∈ X ++ vendor ++ Y ++ scriptCloseTag,
      (fun x => decide (x ≠ '>')) c = true := by
    intro c hc
    simp only [decide_eq_true_eq]
    rcases List.mem_append.mp hc with hc1 | hc4
    · rcases List.mem_append.mp hc1 with hc2 | hc3
      · rcases List.mem_append.mp hc2 with hc5 | hc6
        exacts [hX c hc5, hV c hc6]
      · exact hY c hc3
    · have hct : scriptCloseTag = ['<', '/', 's', 'c', 'r', 'i', 'p', 't'] := by decide
      rw [hct] at hc4
      fin_cases hc4 <;> decide
  unfold tryMatchScript
  rw [if_pos (by
    rw [show scriptOpen ++ T ++ '>' :: (X ++ vendor ++ Y ++ scriptCloseTag ++ '>' :: rest)
        = scriptOpen ++ (T ++ '>' :: (X ++ vendor ++ Y ++ scriptCloseTag ++ '>' :: rest))
        from by simp]
    rw [ List.isPrefixOf_iff_prefix]
    exact List.prefix_append _ _)]
  have hdrop : (scriptOpen ++ T
        ++ '>' :: (X ++ vendor ++ Y ++ scriptCloseTag ++ '>' :: rest)).drop 7
      = T ++ '>' :: (X ++ vendor ++ Y ++ scriptCloseTag ++ '>' :: rest) := by
    rw [show scriptOpen ++ T ++ '>' :: (X ++ vendor ++ Y ++ scriptCloseTag ++ '>' :: rest)
        = scriptOpen ++ (T ++ '>' :: (X ++ vendor ++ Y ++ scriptCloseTag ++ '>' :: rest))
        from by simp]
    rw [show (7 : Nat) = scriptOpen.length from by decide]
    exact List.drop_left _ _
  rw [hdrop]
  rw [dropWhile_append_cons T '>' _ (fun c hc => by simpa using hT c hc) (by decide)]
  dsimp only
  rw [takeWhile_append_cons _ '>' rest hB (by decide),
    dropWhile_append_cons _ '>' rest hB (by decide)]
  dsimp only
  rw [if_pos]
  rw [Bool.and_eq_true_iff]
  constructor
  · rw [List.isSuffixOf_iff_suffix]
    rw [show X ++ vendor ++ Y ++ scriptCloseTag
        = (X ++ vendor ++ Y) ++ scriptCloseTag from by simp]
    exact List.suffix_append _ _
  · have hlen : (X ++ vendor ++ Y ++ scriptCloseTag).length - 8
        = (X ++ vendor ++ Y).length := by
      simp [scriptCloseTag]
      omega
    rw [hlen]
    rw [show X ++ vendor ++ Y ++ scriptCloseTag
        = (X ++ vendor ++ Y) ++ scriptCloseTag from by simp]
    rw [List.take_left]
    exact containsSub_of_decomp vendor X Y

theorem replaceScriptsFuel_cons_match (vendor stub : Text) (fuel : Nat) (c : Char)
    (t rest : Text) (hm : tryMatchScript vendor (c :: t) = some rest) :
    replaceScriptsFuel vendor stub (fuel + 1) (c :: t)
      = stub ++ replaceScriptsFuel vendor stub fuel rest := by
  simp only [replaceScriptsFuel]
  rw [hm]

/-- A `<script ...>...VENDOR...</script>` block inside a larger document. -/
def blockOf (T X Y v : Text) : Text :=
  scriptOpen ++ T ++ '>' :: (X ++ v ++ Y ++ scriptCloseTag ++ ['>'])

/-- The six vendor substrings with their replacement stubs, in the order the
entry-document rewrite applies them (clientApp.ts lines 262-286). -/
def vendorStubs : List (Text × Text) :=
  [("xsolla".toList, xsollaStub), ("facebook".toList, facebookStub),
   ("google".toList, googleStub), ("mxpnl".toList, mxpnlStub),
   ("twttr".toList, twttrStub), ("onRecaptchaLoad".toList, recaptchaStub)]

theorem tryMatchScript_head_ne (vendor : Text) (c : Char) (t : Text)
    (hc : c ≠ '<') : tryMatchScript vendor (c :: t) = none := by
  unfold tryMatchScript
  rw [if_neg]
  intro hpre2
  rw [show (scriptOpen : Text) = '<' :: "script".toList from rfl] at hpre2
  rw [ List.isPrefixOf_iff_prefix] at hpre2
  obtain ⟨r, hr⟩ := hpre2
  rw [List.cons_append] at hr
  have hh := congrArg List.head? hr
  simp only [List.head?_cons, Option.some.injEq] at hh
  exact hc hh.symm

/-- Scanning a prefix that contains no `'<'` cannot start a match: the scan
copies it unchanged and continues on the rest. -/
theorem replaceScriptsFuel_pre (vendor stub pre : Text)
    (hpre : ∀ c ∈ pre, c ≠ '<') :
    ∀ (fuel : Nat) (rest : Text),
      replaceScriptsFuel vendor stub (pre.length + fuel) (pre ++ rest)
        = pre ++ replaceScriptsFuel vendor stub fuel rest := by
  induction pre with
  | nil =>
    intro fuel rest
    rw [List.length_nil, Nat.zero_add]
    rfl
  | cons c pr ih =>
    intro fuel rest
    have hlen : (c :: pr).length + fuel = (pr.length + fuel) + 1 := by
      simp only [List.length_cons]
      omega
    rw [hlen]
    show replaceScriptsFuel vendor stub ((pr.length + fuel) + 1) (c :: (pr ++ rest))
      = (c :: pr) ++ replaceScriptsFuel vendor stub fuel rest
    simp only [replaceScriptsFuel]
    rw [tryMatchScript_head_ne vendor c _ (hpre c (by simp))]
    rw [ih (fun d hd => hpre d (by simp [hd])) fuel rest]
    rfl

/-- One vendor pass on a document `pre ++ block ++ post`: with no `'<'` in
the prefix, a matched block and no vendor mention in the suffix, the pass
replaces exactly the block by the stub. -/
theorem replaceScripts_block_ctx (vendor stub pre T X Y post : Text)
    (hpre : ∀ c ∈ pre, c ≠ '<')
    (hT : ∀ c ∈ T, c ≠ '>') (hX : ∀ c ∈ X, c ≠ '>') (hY : ∀ c ∈ Y, c ≠ '>')
    (hV : ∀ c ∈ vendor, c ≠ '>')
    (hpost : containsSub vendor post = false) :
    replaceScripts vendor stub (pre ++ blockOf T X Y vendor ++ post)
      = pre ++ stub ++ post := by
  have hm : tryMatchScript vendor
      ('<' :: ("script".toList ++ T
        ++ '>' :: (X ++ vendor ++ Y ++ scriptCloseTag ++ '>' :: post)))
      = some post := tryMatchScript_block vendor T X Y post hT hX hY hV
  have hBP : blockOf T X Y vendor ++ post
      = '<' :: ("script".toList ++ T
          ++ '>' :: (X ++ vendor ++ Y ++ scriptCloseTag ++ '>' :: post)) := by
    have hso : (scriptOpen : Text) = '<' :: "script".toList := rfl
    simp [blockOf, hso]
  unfold replaceScripts
  rw [show pre ++ blockOf T X Y vendor ++ post
      = pre ++ (blockOf T X Y vendor ++ post) from by simp]
  rw [show (pre ++ (blockOf T X Y vendor ++ post)).length
      = pre.length + (blockOf T X Y vendor ++ post).length from by simp]
  rw [replaceScriptsFuel_pre vendor stub pre hpre _ _]
  rw [show pre ++ stub ++ post = pre ++ (stub ++ post) from by simp]
  congr 1
  rw [hBP, List.length_cons]
  rw [replaceScriptsFuel_cons_match vendor stub _ '<' _ post hm]
  rw [replaceScriptsFuel_noVendor vendor stub _ post hpost]

/-- C8 fails as stated: a script block whose content itself contains a `'>'`
(here `1>2`) is not matched by `/<script[^>]*>[^>]*xsolla[^>]*<\/script>/`
(the `[^>]*` runs cannot cross `'>'`), so the document — which does contain a
`<script>...</script>` block mentioning `xsolla` — is returned unchanged,
`xsolla` surviving outside any stub (the rewrite emits no stub at all). -/
theorem tracking_strip_counterexample :
    trackingRewrite "<script>1>2;xsolla()</script>".toList
        = "<script>1>2;xsolla()</script>".toList ∧
    containsSub "xsolla".toList "<script>1>2;xsolla()</script>".toList = true ∧
    containsSub xsollaStub "<script>1>2;xsolla()</script>".toList = false ∧
    "<script>1>2;xsolla()</script>".toList
      = "<script>".toList ++ "1>2;xsolla()".toList ++ "</script>".toList := by
  refine ⟨by decide, by decide, by decide, by decide⟩

theorem mem_of_head_opt (l : Text) (c : Char) (h : l.head? = some c) : c ∈ l := by
  cases l with
  | nil => simp at h
  | cons a t =>
    obtain rfl : a = c := by simpa using h
    simp

theorem mem_of_getLast_opt (l : Text) (c : Char) (h : l.getLast? = some c) : c ∈ l := by
  obtain rfl | ⟨l2, a, hla⟩ := l.eq_nil_or_concat
  · simp at h
  · rw [List.concat_eq_append] at hla
    subst hla
    rw [List.getLast?_concat] at h
    obtain rfl : a = c := by simpa using h
    simp

/-- Occurrence localization: if neither the prefix nor the suffix mentions
`v`, `v` avoids both `'<'` and `'>'`, and the middle part starts with `'<'`
and ends with `'>'`, then every occurrence of `v` in `pre ++ mid ++ post`
lies inside `mid`. -/
theorem occurrence_in_middle (v pre mid post x y : Text)
    (hvlt : '<' ∉ v) (hvgt : '>' ∉ v)
    (hpre : containsSub v pre = false) (hpost : containsSub v post = false)
    (hmidh : mid.head? = some '<') (hmidl : mid.getLast? = some '>')
    (heq : pre ++ mid ++ post = x ++ v ++ y) :
    ∃ m1 m2, mid = m1 ++ v ++ m2 ∧ x = pre ++ m1 ∧ y = m2 ++ post := by
  have hmidne : mid ≠ [] := by
    rintro rfl
    simp at hmidh
  have heq2 : pre ++ (mid ++ post) = x ++ (v ++ y) := by simpa using heq
  have funnel : ∃ c, x = pre ++ c ∧ mid ++ post = c ++ (v ++ y) := by
    rcases List.append_eq_append_iff.mp heq2 with ⟨a, hxa, hmp⟩ | ⟨c, hpc, hvy⟩
    · exact ⟨a, hxa, hmp⟩
    · exfalso
      rcases List.append_eq_append_iff.mp hvy with ⟨w, hcw, _⟩ | ⟨w, hvw, hmp2⟩
      · have ht : containsSub v pre = true := by
          rw [hpc, hcw]
          simpa using containsSub_of_decomp v x w
        rw [ht] at hpre
        exact Bool.noConfusion hpre
      · cases w with
        | nil =>
          rw [List.append_nil] at hvw
          have ht : containsSub v pre = true := by
            rw [hpc, ← hvw]
            simpa using containsSub_of_decomp v x []
          rw [ht] at hpre
          exact Bool.noConfusion hpre
        | cons w0 wt =>
          have hh : (mid ++ post).head? = some '<' := by
            rw [List.head?_append_of_ne_nil mid hmidne]
            exact hmidh
          rw [hmp2] at hh
          have hw0 : w0 = '<' := by simpa using hh
          refine hvlt ?_
          rw [hvw, hw0]
          exact List.mem_append.mpr (Or.inr (by simp))
  obtain ⟨c, hx, hmp⟩ := funnel
  rcases List.append_eq_append_iff.mp hmp with ⟨w, _, hpost2⟩ | ⟨w, hmw, hvyw⟩
  · exfalso
    have ht : containsSub v post = true := by
      rw [hpost2]
      simpa using containsSub_of_decomp v w y
    rw [ht] at hpost
    exact Bool.noConfusion hpost
  · rcases List.append_eq_append_iff.mp hvyw with ⟨u, hwu, hyu⟩ | ⟨u, hvu, hpostu⟩
    · refine ⟨c, u, ?_, hx, hyu⟩
      rw [hmw, hwu]
      simp
    · cases u with
      | nil =>
        rw [List.append_nil] at hvu
        refine ⟨c, [], ?_, hx, ?_⟩
        · rw [hmw, ← hvu]
          simp
        · simpa using hpostu.symm
      | cons u0 ut =>
        exfalso
        cases w with
        | nil =>
          rw [List.nil_append] at hvu
          have ht : containsSub v post = true := by
            rw [hpostu, ← hvu]
            simpa using containsSub_of_decomp v [] y
          rw [ht] at hpost
          exact Bool.noConfusion hpost
        | cons w0 wt =>
          have hml : mid.getLast? = (w0 :: wt).getLast? := by
            rw [hmw]
            exact List.getLast?_append_of_ne_nil c (by simp)
          rw [hmidl] at hml
          have hmem : '>' ∈ (w0 :: wt) := mem_of_getLast_opt _ _ hml.symm
          refine hvgt ?_
          rw [hvu]
          exact List.mem_append.mpr (Or.inl hmem)

/-- Running all six vendor passes on `pre ++ block(v) ++ post` when only
vendor `v`'s block is present: the non-matching passes leave the document
(resp. the result) unchanged and `v`'s pass replaces the block by its stub. -/
theorem trackingRewrite_single (pre T X Y post v s : Text)
    (hpair : (v, s) ∈ vendorStubs)
    (hpre : ∀ c ∈ pre, c ≠ '<')
    (hT : ∀ c ∈ T, c ≠ '>') (hX : ∀ c ∈ X, c ≠ '>') (hY : ∀ c ∈ Y, c ≠ '>')
    (hdoc : ∀ q ∈ vendorStubs, q.1 ≠ v →
      containsSub q.1 (pre ++ blockOf T X Y v ++ post) = false)
    (hstub : ∀ q ∈ vendorStubs, q.1 ≠ v →
      containsSub q.1 (pre ++ s ++ post) = false)
    (hvpost : containsSub v post = false) :
    trackingRewrite (pre ++ blockOf T X Y v ++ post) = pre ++ s ++ post := by
  simp only [vendorStubs, List.mem_cons, Prod.mk.injEq, List.not_mem_nil,
    or_false] at hpair
  rcases hpair with ⟨rfl, rfl⟩ | ⟨rfl, rfl⟩ | ⟨rfl, rfl⟩ | ⟨rfl, rfl⟩
    | ⟨rfl, rfl⟩ | ⟨rfl, rfl⟩
  · unfold trackingRewrite
    rw [replaceScripts_block_ctx "xsolla".toList xsollaStub pre T X Y post
      hpre hT hX hY (by decide) hvpost]
    rw [replaceScripts_noVendor "facebook".toList facebookStub _
      (hstub ("facebook".toList, facebookStub) (by decide) (by decide))]
    rw [replaceScripts_noVendor "google".toList googleStub _
      (hstub ("google".toList, googleStub) (by decide) (by decide))]
    rw [replaceScripts_noVendor "mxpnl".toList mxpnlStub _
      (hstub ("mxpnl".toList, mxpnlStub) (by decide) (by decide))]
    rw [replaceScripts_noVendor "twttr".toList twttrStub _
      (hstub ("twttr".toList, twttrStub) (by decide) (by decide))]
    rw [replaceScripts_noVendor "onRecaptchaLoad".toList recaptchaStub _
      (hstub ("onRecaptchaLoad".toList, recaptchaStub) (by decide) (by decide))]
  · unfold trackingRewrite
    rw [replaceScripts_noVendor "xsolla".toList xsollaStub _
      (hdoc ("xsolla".toList, xsollaStub) (by decide) (by decide))]
    rw [replaceScripts_block_ctx "facebook".toList facebookStub pre T X Y post
      hpre hT hX hY (by decide) hvpost]
    rw [replaceScripts_noVendor "google".toList googleStub _
      (hstub ("google".toList, googleStub) (by decide) (by decide))]
    rw [replaceScripts_noVendor "mxpnl".toList mxpnlStub _
      (hstub ("mxpnl".toList, mxpnlStub) (by decide) (by decide))]
    rw [replaceScripts_noVendor "twttr".toList twttrStub _
      (hstub ("twttr".toList, twttrStub) (by decide) (by decide))]
    rw [replaceScripts_noVendor "onRecaptchaLoad".toList recaptchaStub _
      (hstub ("onRecaptchaLoad".toList, recaptchaStub) (by decide) (by decide))]
  · unfold trackingRewrite
    rw [replaceScripts_noVendor "xsolla".toList xsollaStub _
      (hdoc ("xsolla".toList, xsollaStub) (by decide) (by decide))]
    rw [replaceScripts_noVendor "facebook".toList facebookStub _
      (hdoc ("facebook".toList, facebookStub) (by decide) (by decide))]
    rw [replaceScripts_block_ctx "google".toList googleStub pre T X Y post
      hpre hT hX hY (by decide) hvpost]
    rw [replaceScripts_noVendor "mxpnl".toList mxpnlStub _
      (hstub ("mxpnl".toList, mxpnlStub) (by decide) (by decide))]
    rw [replaceScripts_noVendor "twttr".toList twttrStub _
      (hstub ("twttr".toList, twttrStub) (by decide) (by decide))]
    rw [replaceScripts_noVendor "onRecaptchaLoad".toList recaptchaStub _
      (hstub ("onRecaptchaLoad".toList, recaptchaStub) (by decide) (by decide))]
  · unfold trackingRewrite
    rw [replaceScripts_noVendor "xsolla".toList xsollaStub _
      (hdoc ("xsolla".toList, xsollaStub) (by decide) (by decide))]
    rw [replaceScripts_noVendor "facebook".toList facebookStub _
      (hdoc ("facebook".toList, facebookStub) (by decide) (by decide))]
    rw [replaceScripts_noVendor "google".toList googleStub _
      (hdoc ("google".toList, googleStub) (by decide) (by decide))]
    rw [replaceScripts_block_ctx "mxpnl".toList mxpnlStub pre T X Y post
      hpre hT hX hY (by decide) hvpost]
    rw [replaceScripts_noVendor "twttr".toList twttrStub _
      (hstub ("twttr".toList, twttrStub) (by decide) (by decide))]
    rw [replaceScripts_noVendor "onRecaptchaLoad".toList recaptchaStub _
      (hstub ("onRecaptchaLoad".toList, recaptchaStub) (by decide) (by decide))]
  · unfold trackingRewrite
    rw [replaceScripts_noVendor "xsolla".toList xsollaStub _
      (hdoc ("xsolla".toList, xsollaStub) (by decide) (by decide))]
    rw [replaceScripts_noVendor "facebook".toList facebookStub _
      (hdoc ("facebook".toList, facebookStub) (by decide) (by decide))]
    rw [replaceScripts_noVendor "google".toList googleStub _
      (hdoc ("google".toList, googleStub) (by decide) (by decide))]
    rw [replaceScripts_noVendor "mxpnl".toList mxpnlStub _
      (hdoc ("mxpnl".toList, mxpnlStub) (by decide) (by decide))]
    rw [replaceScripts_block_ctx "twttr".toList twttrStub pre T X Y post
      hpre hT hX hY (by decide) hvpost]
    rw [replaceScripts_noVendor "onRecaptchaLoad".toList recaptchaStub _
      (hstub ("onRecaptchaLoad".toList, recaptchaStub) (by decide) (by decide))]
  · unfold trackingRewrite
    rw [replaceScripts_noVendor "xsolla".toList xsollaStub _
      (hdoc ("xsolla".toList, xsollaStub) (by decide) (by decide))]
    rw [replaceScripts_noVendor "facebook".toList facebookStub _
      (hdoc ("facebook".toList, facebookStub) (by decide) (by decide))]
    rw [replaceScripts_noVendor "google".toList googleStub _
      (hdoc ("google".toList, googleStub) (by decide) (by decide))]
    rw [replaceScripts_noVendor "mxpnl".toList mxpnlStub _
      (hdoc ("mxpnl".toList, mxpnlStub) (by decide) (by decide))]
    rw [replaceScripts_noVendor "twttr".toList twttrStub _
      (hdoc ("twttr".toList, twttrStub) (by decide) (by decide))]
    rw [replaceScripts_block_ctx "onRecaptchaLoad".toList recaptchaStub pre T X Y post
      hpre hT hX hY (by decide) hvpost]

/-- C8 amended: for an entry document `pre ++ block ++ post` whose block the
stripping pattern matches for one of the six vendor substrings — attribute
run and content free of `'>'`, content mentioning the vendor — with a
`'<'`-free prefix, no vendor substring mentioned in prefix or suffix, and the
other vendors absent from document and result, the rewrite replaces exactly
the block by that vendor's inert stub (prefix and suffix byte-identical),
and every occurrence of the vendor substring in the result lies inside the
stub: nothing survives outside the inert stub assignment. -/
theorem tracking_script_strip (pre T X Y post : Text) (p : Text × Text)
    (hp : p ∈ vendorStubs)
    (hpre : ∀ c ∈ pre, c ≠ '<')
    (hT : ∀ c ∈ T, c ≠ '>') (hX : ∀ c ∈ X, c ≠ '>') (hY : ∀ c ∈ Y, c ≠ '>')
    (hout : ∀ q ∈ vendorStubs,
      containsSub q.1 pre = false ∧ containsSub q.1 post = false)
    (hdoc : ∀ q ∈ vendorStubs, q.1 ≠ p.1 →
      containsSub q.1 (pre ++ blockOf T X Y p.1 ++ post) = false)
    (hstub : ∀ q ∈ vendorStubs, q.1 ≠ p.1 →
      containsSub q.1 (pre ++ p.2 ++ post) = false) :
    trackingRewrite (pre ++ blockOf T X Y p.1 ++ post) = pre ++ p.2 ++ post ∧
    ∀ x y, pre ++ p.2 ++ post = x ++ p.1 ++ y →
      ∃ m1 m2, p.2 = m1 ++ p.1 ++ m2 ∧ x = pre ++ m1 ∧ y = m2 ++ post := by
  obtain ⟨v, s⟩ := p
  have hfacts : ∀ q ∈ vendorStubs,
      ('<' ∉ q.1 ∧ '>' ∉ q.1) ∧ q.2.head? = some '<'
        ∧ q.2.getLast? = some '>' := by decide
  constructor
  · exact trackingRewrite_single pre T X Y post v s hp hpre hT hX hY hdoc hstub
      (hout (v, s) hp).2
  · intro x y hxy
    exact occurrence_in_middle v pre s post x y
      ((hfacts (v, s) hp).1.1) ((hfacts (v, s) hp).1.2)
      ((hout (v, s) hp).1) ((hout (v, s) hp).2)
      ((hfacts (v, s) hp).2.1) ((hfacts (v, s) hp).2.2) hxy

/-- Closed instance of the amended stripping behaviour, for the `xsolla`
vendor (stub free of the vendor string) and the `twttr` vendor (whose stub
itself assigns to `window.twttr`, so the occurrence is inside the stub). -/
theorem tracking_script_strip_witness :
    trackingRewrite ("A ".toList ++ blockOf [] "track ".toList " now".toList
        "xsolla".toList ++ " end".toList)
      = "A ".toList ++ xsollaStub ++ " end".toList ∧
    trackingRewrite ("A ".toList ++ blockOf [] "go ".toList " t".toList
        "twttr".toList ++ " end".toList)
      = "A ".toList ++ twttrStub ++ " end".toList := by
  have h1 := tracking_script_strip "A ".toList [] "track ".toList " now".toList
    " end".toList ("xsolla".toList, xsollaStub) (by decide) (by decide) (by decide)
    (by decide) (by decide) (by decide) (by decide) (by decide)
  have h2 := tracking_script_strip "A ".toList [] "go ".toList " t".toList
    " end".toList ("twttr".toList, twttrStub) (by decide) (by decide) (by decide)
    (by decide) (by decide) (by decide) (by decide) (by decide)
  exact ⟨h1.1, h2.1⟩

/-! Section: Request dispatch: the Koa middleware chain and the WebSocket upgrade
handler (clientApp.ts lines 158-201, 209-218, 404-439) -/

structure Config where
  backendArg : Option Text
  internalBackend : Option Text
deriving DecidableEq, Repr

structure Request where
  path : Text
  url : Text
  host : Option Text
  upgrade : Option Text
  methodGetHead : Bool
  ifModifiedSince : Option Nat
deriving DecidableEq, Repr

/-- How a request leaves the pipeline. `errorLogged` is the asset
middleware's bare `return` after logging (no body set, which Koa serves as a
404); `fallthrough404` is the end of the middleware chain; `upgradeBypass`
is the proxy middleware's `respond = false` early return for upgrade
headers. The second component of `dispatch` records whether the content
rewrite ran. -/
inductive Outcome where
  | renderIndex
  | publicFile (f : Text)
  | errorLogged
  | notModified
  | assetServed (archivePath : Text)
  | proxied (target endpoint : Text)
  | upgradeBypass
  | fallthrough404
  | socketClosed
  | wsProxied (target endpoint : Text)
deriving DecidableEq, Repr

def publicFileNames : List Text :=
  ["public/favicon.png".toList, "public/style.css".toList,
   "dist/serverStatus.js".toList]

def hexDigit (n : Nat) : Char :=
  Char.ofNat (if n < 10 then 48 + n else 55 + n)

def percentByte (b : Nat) : Text := ['%', hexDigit (b / 16), hexDigit (b % 16)]

def utf8Bytes (c : Char) : List Nat :=
  let n := c.toNat
  if n < 0x80 then [n]
  else if n < 0x800 then [0xC0 + n / 64, 0x80 + n % 64]
  else if n < 0x10000 then [0xE0 + n / 4096, 0x80 + n / 64 % 64, 0x80 + n % 64]
  else [0xF0 + n / 262144, 0x80 + n / 4096 % 64, 0x80 + n / 64 % 64, 0x80 + n % 64]

def uriUnreserved (c : Char) : Bool :=
  c.isAlphanum || c = '-' || c = '_' || c = '.' || c = '!' || c = '~' || c = '*'
    || c = '\'' || c = '(' || c = ')'

def encodeURIComponent (t : Text) : Text :=
  (t.map (fun c =>
    if uriUnreserved c then [c] else ((utf8Bytes c).map percentByte).flatten)).flatten

/-- Lines 414-418: auth sub-paths get a `returnUrl` query parameter carrying
the encoded backend origin, with `?`/`&` chosen from the endpoint's shape. -/
def authAdjust (endpoint backend : Text) : Text :=
  if "/api/auth".toList.isPrefixOf endpoint then
    let sep : Text :=
      if endpoint.getLast? = some '?' then []
      else if '?' ∈ endpoint then ['&'] else ['?']
    endpoint ++ sep ++ "returnUrl=".toList ++ encodeURIComponent backend
  else endpoint

/-- Model of `context.fresh` after `context.lastModified = lastModified` (line 215):
a GET/HEAD request is fresh when its if-modified-since value is at least the
archive's timestamp. -/
def freshCheck (req : Request) (lastModified : Nat) : Bool :=
  req.methodGetHead &&
    match req.ifModifiedSince with
    | some t => decide (lastModified ≤ t)
    | none => false

/-- The HTTP middleware chain in registration order: index renderer and
public files (both skipped in override mode), asset middleware (terminal
error when decode fails or the Host header is missing; freshness
short-circuit before the rewrite; rewrite on archive hit), then the proxy
middleware (upgrade bypass, `proxy.web` to `internal_backend ?? backend`
with the auth `returnUrl` adjustment). -/
def dispatch (cfg : Config) (zipFiles : List Text) (lastModified : Nat)
    (serverListNonempty : Bool) (req : Request) : Outcome × Bool :=
  if cfg.backendArg.isNone = true
      ∧ (req.path = "/".toList ∨ req.path = "index.html".toList)
      ∧ serverListNonempty = true then
    (.renderIndex, false)
  else
    match (if cfg.backendArg.isNone = true then
        publicFileNames.find? (fun f => f = req.path.drop 1) else none) with
    | some f => (.publicFile f, false)
    | none =>
      match extract cfg.backendArg req.path, req.host with
      | none, _ => (.errorLogged, false)
      | some _, none => (.errorLogged, false)
      | some info, some _ =>
        let urlPath := assetLookupPath info.backend info.endpoint
        if urlPath ∈ zipFiles then
          if freshCheck req lastModified then (.notModified, false)
          else (.assetServed urlPath, true)
        else
          if req.upgrade.isSome = true then (.upgradeBypass, false)
          else
            match extract cfg.backendArg req.url with
            | some info2 =>
              (.proxied (cfg.internalBackend.getD info2.backend)
                (authAdjust info2.endpoint info2.backend), false)
            | none => (.fallthrough404, false)

/-- The `server.on('upgrade')` handler (lines 428-439): a decodable URL with
an `upgrade: websocket` header is forwarded via `proxy.ws` to
`internal_backend ?? backend` with the inner endpoint; anything else ends
the socket. -/
def wsUpgrade (cfg : Config) (reqUrl : Text) (upgradeHeader : Option Text) :
    Outcome :=
  match extract cfg.backendArg reqUrl, upgradeHeader with
  | some info, some uh =>
    if toLowerText uh = "websocket".toList then
      .wsProxied (cfg.internalBackend.getD info.backend) info.endpoint
    else .socketClosed
  | _, _ => .socketClosed

theorem publicFind_paren (rest : Text) :
    publicFileNames.find? (fun f => f = '(' :: rest) = none := by
  have e1 : ("public/favicon.png".toList : Text)
      = 'p' :: "ublic/favicon.png".toList := rfl
  have e2 : ("public/style.css".toList : Text)
      = 'p' :: "ublic/style.css".toList := rfl
  have e3 : ("dist/serverStatus.js".toList : Text)
      = 'd' :: "ist/serverStatus.js".toList := rfl
  simp [publicFileNames, List.find?, e1, e2, e3]

/-- After the index and public-file middleware decline, a decodable request
path reaches the asset middleware. -/
theorem dispatch_to_asset (cfg : Config) (zip : List Text) (lm : Nat) (sl : Bool)
    (req : Request) (info : RouteInfo)
    (hp : extract cfg.backendArg req.path = some info) :
    dispatch cfg zip lm sl req =
      (match req.host with
       | none => (Outcome.errorLogged, false)
       | some _ =>
         let urlPath := assetLookupPath info.backend info.endpoint
         if urlPath ∈ zip then
           if freshCheck req lm then (.notModified, false)
           else (.assetServed urlPath, true)
         else
           if req.upgrade.isSome = true then (.upgradeBypass, false)
           else
             match extract cfg.backendArg req.url with
             | some info2 =>
               (.proxied (cfg.internalBackend.getD info2.backend)
                 (authAdjust info2.endpoint info2.backend), false)
             | none => (.fallthrough404, false)) := by
  have hidx : ¬ (cfg.backendArg.isNone = true
      ∧ (req.path = "/".toList ∨ req.path = "index.html".toList)
      ∧ sl = true) := by
    rintro ⟨hn, hpath, -⟩
    match hcfg : cfg.backendArg with
    | some b =>
      rw [hcfg] at hn
      simp at hn
    | none =>
      rw [hcfg] at hp
      obtain ⟨b2, tail, hshape, -, -, -, -⟩ := extract_none_eq_some req.path info hp
      rcases hpath with hpath | hpath <;> rw [hpath] at hshape
      · exact absurd hshape (by simp)
      · rw [show ("index.html".toList : Text) = 'i' :: "ndex.html".toList from rfl]
          at hshape
        simp at hshape
  have hpub : (if cfg.backendArg.isNone = true then
      publicFileNames.find? (fun f => f = req.path.drop 1) else none) = none := by
    match hcfg : cfg.backendArg with
    | some b => rfl
    | none =>
      rw [hcfg] at hp
      obtain ⟨b2, tail, hshape, -, -, -, -⟩ := extract_none_eq_some req.path info hp
      rw [if_pos (show (none : Option Text).isNone = true from rfl), hshape]
      exact publicFind_paren _
  unfold dispatch
  rw [if_neg hidx, hpub]
  dsimp only
  rw [hp]
  cases req.host <;> rfl

/-- C3 fails as stated: a routable request (decode succeeds) that lacks a
Host header and misses the archive is answered by the asset middleware's
terminal logged-error return — an empty response Koa serves as 404 — and is
never forwarded. -/
theorem dispatch_no_host_counterexample :
    extract none "/(http://10.0.0.1:21025)/api/version".toList
      = some ⟨"http://10.0.0.1:21025".toList, "/api/version".toList⟩ ∧
    dispatch ⟨none, none⟩ [] 0 false
        ⟨"/(http://10.0.0.1:21025)/api/version".toList,
         "/(http://10.0.0.1:21025)/api/version".toList, none, none, true, none⟩
      = (.errorLogged, false) := by
  refine ⟨by decide, by decide⟩

/-- C3 amended: every routable non-upgrade request that carries a Host
header and whose inner endpoint misses the archive is pass-through forwarded
(`proxy.web`) to the configured internal backend or the decoded backend, and
never receives a terminal 404; a routable WebSocket upgrade is likewise
forwarded by the upgrade handler. -/
theorem dispatch_passthrough (cfg : Config) (zip : List Text) (lm : Nat)
    (sl : Bool) (req : Request) (info info2 : RouteInfo) (hostv uh : Text)
    (hp : extract cfg.backendArg req.path = some info)
    (hu : extract cfg.backendArg req.url = some info2)
    (hh : req.host = some hostv)
    (hupg : req.upgrade = none)
    (hmiss : assetLookupPath info.backend info.endpoint ∉ zip)
    (hws : toLowerText uh = "websocket".toList) :
    dispatch cfg zip lm sl req
      = (.proxied (cfg.internalBackend.getD info2.backend)
          (authAdjust info2.endpoint info2.backend), false) ∧
    wsUpgrade cfg req.url (some uh)
      = .wsProxied (cfg.internalBackend.getD info2.backend) info2.endpoint := by
  constructor
  · rw [dispatch_to_asset cfg zip lm sl req info hp, hh]
    rw [if_neg hmiss, hupg]
    rw [hu]
    rfl
  · unfold wsUpgrade
    rw [hu]
    dsimp only
    rw [if_pos hws]

/-- Closed instance of the pass-through dispatch. -/
theorem dispatch_passthrough_witness :
    dispatch ⟨none, none⟩ ["index.html".toList] 7 true
        ⟨"/(http://10.0.0.1:21025)/api/version".toList,
         "/(http://10.0.0.1:21025)/api/version".toList,
         some "localhost:8080".toList, none, true, none⟩
      = (.proxied "http://10.0.0.1:21025".toList
          (authAdjust "/api/version".toList "http://10.0.0.1:21025".toList),
         false) ∧
    wsUpgrade ⟨none, none⟩ "/(http://10.0.0.1:21025)/api/version".toList
        (some "WebSocket".toList)
      = .wsProxied "http://10.0.0.1:21025".toList "/api/version".toList := by
  have h := dispatch_passthrough ⟨none, none⟩ ["index.html".toList] 7 true
    ⟨"/(http://10.0.0.1:21025)/api/version".toList,
     "/(http://10.0.0.1:21025)/api/version".toList,
     some "localhost:8080".toList, none, true, none⟩
    ⟨"http://10.0.0.1:21025".toList, "/api/version".toList⟩
    ⟨"http://10.0.0.1:21025".toList, "/api/version".toList⟩
    "localhost:8080".toList "WebSocket".toList
    (by decide) (by decide) rfl rfl (by decide) (by decide)
  exact h

end SteamlessClient
